import Mathlib

/-!
Verification of the feed-synchronization pipeline (CSV ingestion, mapping,
diffing, row cache, job queue worker) against its natural-language
specification.  The definitions below are shallow embeddings of the
JavaScript sources: `src/server/services/csv/csv-parser.js`,
`src/server/services/mapping/mapping-engine.js`,
`src/server/services/diff/diff-engine.js`, `src/server/models/RowCache.js`,
`src/server/models/Job.js`, `src/server/workers/queue-worker.js`,
`src/server/workers/scheduler.js` and `src/server/routes` queue listeners.
JavaScript strings are modelled by `String`, JS objects by association
lists, `null`/`undefined` by `Option`, and fallible persistence by
`Except`.
-/

/-! ## JavaScript string primitives -/

/-- ASCII whitespace recognized by the embedding of `String.prototype.trim`
and of the `\s` regex class (space, tab, newline, carriage return). -/
def isJsWs (c : Char) : Bool :=
  c = ' ' || c = '\t' || c = '\n' || c = '\r'

/-- `String.prototype.trim` on a character list. -/
def jsTrimList (l : List Char) : List Char :=
  ((l.dropWhile isJsWs).reverse.dropWhile isJsWs).reverse

/-- `String.prototype.trim`. -/
def jsTrim (s : String) : String :=
  ⟨jsTrimList s.data⟩

/-- `String.prototype.toLowerCase` (ASCII). -/
def jsToLower (s : String) : String :=
  ⟨s.data.map Char.toLower⟩

/-- `String.prototype.toUpperCase` (ASCII). -/
def jsToUpper (s : String) : String :=
  ⟨s.data.map Char.toUpper⟩

/-- Truthiness of a JS string-or-null value: `null`, `undefined` and the
empty string are falsy. -/
def jsTruthy : Option String → Bool
  | none => false
  | some s => s ≠ ""

/-- `a || null` for a string-valued expression: a falsy value collapses to
`null`. -/
def jsOrNull (v : Option String) : Option String :=
  if jsTruthy v then v else none

/-- Word characters of the JS `\w` regex class: `[A-Za-z0-9_]`. -/
def isWordChar (c : Char) : Bool :=
  ('a' ≤ c && c ≤ 'z') || ('A' ≤ c && c ≤ 'Z') || ('0' ≤ c && c ≤ '9') || c = '_'

/-- `startsWith` on character lists (first argument: the string, second:
the pattern). -/
def listStartsWith : List Char → List Char → Bool
  | _, [] => true
  | [], _ :: _ => false
  | c :: cs, p :: ps => c = p && listStartsWith cs ps

/-- `String.prototype.startsWith`. -/
def jsStartsWith (s pat : String) : Bool :=
  listStartsWith s.data pat.data

/-- Decimal digit character for a value below ten (used by the embedding of
JS number-to-string conversion). -/
def digitChar (k : Nat) : Char :=
  if k = 0 then '0' else if k = 1 then '1' else if k = 2 then '2'
  else if k = 3 then '3' else if k = 4 then '4' else if k = 5 then '5'
  else if k = 6 then '6' else if k = 7 then '7' else if k = 8 then '8' else '9'

/-- Decimal digits, most significant first, with a structural fuel
parameter (the fuel is an upper bound on the value, so it never runs
out). -/
def natDigitsGo : Nat → Nat → List Char
  | 0, _ => []
  | fuel + 1, n =>
      if n < 10 then [digitChar n]
      else natDigitsGo fuel (n / 10) ++ [digitChar (n % 10)]

/-- Decimal digits of a natural number, most significant first (embedding
of the JS template-literal conversion of a nonnegative integer). -/
def natDigits (n : Nat) : List Char :=
  natDigitsGo (n + 1) n

/-- Decimal string of a natural number. -/
def jsNumToString (n : Nat) : String :=
  ⟨natDigits n⟩

/-- `String.prototype.split` helper: cut a character list at every
occurrence of the separator, keeping empty chunks, accumulating the
current chunk in reverse. -/
def splitAux (sep : Char) : List Char → List Char → List (List Char)
  | [], acc => [acc.reverse]
  | c :: rest, acc =>
      if c = sep then acc.reverse :: splitAux sep rest []
      else splitAux sep rest (c :: acc)

/-- `String.prototype.split(sep)` for a single-character separator. -/
def jsSplit (sep : Char) (s : String) : List String :=
  (splitAux sep s.data []).map String.mk

/-! ## Row cache (`src/server/models/RowCache.js`)

The Mongo collection is modelled as a list of documents; the compound
unique index on `(feed, identifier)` means `findOne` takes the first (and
only) match. -/

/-- One `RowCache` document. -/
structure RowCacheEntry where
  feed : Nat
  identifier : String
  identifierType : String
  rowHash : String
  shopifyProductId : Option String
  syncCount : Nat
deriving DecidableEq

/-- `findOne({ feed, identifier })`. -/
def RowCache.findOne : List RowCacheEntry → Nat → String → Option RowCacheEntry
  | [], _, _ => none
  | e :: rest, feedId, ident =>
      if e.feed = feedId ∧ e.identifier = ident then some e
      else RowCache.findOne rest feedId ident

/-- Result shape of `rowCacheSchema.statics.checkRow`; the JS field
`exists` is rendered `cacheExists`. -/
structure RowCheckResult where
  cacheExists : Bool
  changed : Bool
  cache : Option RowCacheEntry
deriving DecidableEq

/-- `rowCacheSchema.statics.checkRow`: look the pair up; a missing entry or
a hash mismatch reports `changed = true`. -/
def RowCache.checkRow (store : List RowCacheEntry) (feedId : Nat) (ident : String)
    (currentHash : String) : RowCheckResult :=
  match RowCache.findOne store feedId ident with
  | none => ⟨false, true, none⟩
  | some cache =>
      if cache.rowHash = currentHash then ⟨true, false, some cache⟩
      else ⟨true, true, some cache⟩

/-- `rowCacheSchema.statics.upsertRow`: `findOneAndUpdate` with `$set` on
`identifierType`, `rowHash`, `shopifyProductId`, `$inc` on `syncCount` and
`upsert: true` (a fresh document starts with `syncCount = 1`). -/
def RowCache.upsertRow : List RowCacheEntry → Nat → String → String → String →
    Option String → List RowCacheEntry
  | [], feedId, ident, identType, rowHash, pid =>
      [⟨feedId, ident, identType, rowHash, pid, 1⟩]
  | e :: rest, feedId, ident, identType, rowHash, pid =>
      if e.feed = feedId ∧ e.identifier = ident then
        ⟨e.feed, e.identifier, identType, rowHash, pid, e.syncCount + 1⟩ :: rest
      else
        e :: RowCache.upsertRow rest feedId ident identType rowHash pid

/-! ## CSV header normalization (`csv-parser.js`) -/

/-- `replace(/X+/g, rep)` for a character class `X`: each maximal run of
characters satisfying `p` becomes the single character `rep`.  The boolean
records whether the previous character was part of a run. -/
def replaceRunsGo (p : Char → Bool) (rep : Char) : Bool → List Char → List Char
  | _, [] => []
  | inRun, c :: rest =>
      if p c then
        if inRun then replaceRunsGo p rep true rest
        else rep :: replaceRunsGo p rep true rest
      else c :: replaceRunsGo p rep false rest

/-- `replace(/X+/g, rep)`. -/
def replaceRuns (p : Char → Bool) (rep : Char) (l : List Char) : List Char :=
  replaceRunsGo p rep false l

/-- The `replace(/\s+/g, '_')` pass of `normalizeHeader`. -/
def collapseWsRuns (l : List Char) : List Char :=
  replaceRuns isJsWs '_' l

/-- Replacement of every non-word character by `_` (the `[^\w]` pass). -/
def mapNonWord (l : List Char) : List Char :=
  l.map (fun c => if isWordChar c then c else '_')

/-- The `replace(/_+/g, '_')` pass of `normalizeHeader`. -/
def collapseUndRuns (l : List Char) : List Char :=
  replaceRuns (fun d => d = '_') '_' l

/-- Drop a single leading underscore. -/
def stripLeadUnd : List Char → List Char
  | '_' :: rest => rest
  | l => l

/-- The `replace(/^_|_$/g, '')` pass: one leading and one trailing
underscore are removed. -/
def stripEdgeUnd (l : List Char) : List Char :=
  ((stripLeadUnd l).reverse |> stripLeadUnd).reverse

/-- `CsvParser.normalizeHeader`. -/
def normalizeHeader (s : String) : String :=
  ⟨(stripEdgeUnd (collapseUndRuns (mapNonWord (collapseWsRuns (jsTrimList s.data))))).map
      Char.toLower⟩

/-- Lookup in the `counts` closure object of `uniquifyHeaders`. -/
def countsFind : List (String × Nat) → String → Option Nat
  | [], _ => none
  | p :: rest, k => if p.1 = k then some p.2 else countsFind rest k

/-- Assignment in the `counts` closure object of `uniquifyHeaders`. -/
def countsSet : List (String × Nat) → String → Nat → List (String × Nat)
  | [], k, v => [(k, v)]
  | p :: rest, k, v => if p.1 = k then (k, v) :: rest else p :: countsSet rest k v

/-- The empty-header fallback `header || 'unnamed_column'`. -/
def headerBase (h : String) : String :=
  if h = "" then "unnamed_column" else h

/-- Loop of `CsvParser.uniquifyHeaders`: first occurrence of a base keeps
its name and records count `0`; the n-th repeat bumps the count and gets
suffix `_n`. -/
def uniquifyGo : List String → List (String × Nat) → List String
  | [], _ => []
  | h :: rest, counts =>
      let base := headerBase h
      match countsFind counts base with
      | none => base :: uniquifyGo rest (countsSet counts base 0)
      | some n =>
          (base ++ "_" ++ jsNumToString (n + 1)) ::
            uniquifyGo rest (countsSet counts base (n + 1))

/-- `CsvParser.uniquifyHeaders`. -/
def uniquifyHeaders (headers : List String) : List String :=
  uniquifyGo headers []

/-- Header row handling of `CsvParser.parseFile`: normalize each raw
header, then uniquify. -/
def parseHeaders (raw : List String) : List String :=
  uniquifyHeaders (raw.map normalizeHeader)

/-! ## Mapping-engine raw value resolution (`mapping-engine.js`) -/

/-- A CSV row produced by `rowToObject`: ordered field map from header to
string-or-null. -/
def CsvRow := List (String × Option String)

/-- Row field access `csvRow[column]` (`undefined` for a missing key joins
`null` as `none`). -/
def rowLookup : CsvRow → String → Option String
  | [], _ => none
  | p :: rest, k => if p.1 = k then p.2 else rowLookup rest k

/-- Raw value resolution at the top of `MappingEngine.transformRow`:
a `CONSTANT:`-prefixed source column resolves to `csvColumn.split(':')[1]`,
anything else to the row lookup.  (Index `1` always exists because such a
column contains a colon.) -/
def resolveRawValue (csvColumn : String) (row : CsvRow) : Option String :=
  if jsStartsWith csvColumn "CONSTANT:" then
    some ((jsSplit ':' csvColumn).getD 1 "")
  else
    rowLookup row csvColumn

/-! ## Mapping engine (`mapping-engine.js`)

JS runtime primitives that the engine calls (float formatting, `Date`
parsing, `URL` validation, `JSON.parse` validity tests) are modelled as an
abstract `JsHost`; all theorems hold for every host.  Field values are
modelled by `JsValue` (strings, booleans, arrays, objects, and
`null`/`undefined` merged into `vNull`); numbers do not occur as CSV or
mapped values in this pipeline. -/

/-- JS values flowing through the mapping and diff engines. -/
inductive JsValue where
  | vNull : JsValue
  | vStr : String → JsValue
  | vBool : Bool → JsValue
  | vArr : List JsValue → JsValue
  | vObj : List (String × JsValue) → JsValue

/-- A string-or-null value as a `JsValue`. -/
def optToJs : Option String → JsValue
  | none => JsValue.vNull
  | some s => JsValue.vStr s

/-- JS object property read (`undefined` for a missing key). -/
def objGet : List (String × JsValue) → String → Option JsValue
  | [], _ => none
  | p :: rest, k => if p.1 = k then some p.2 else objGet rest k

/-- JS object property assignment: overwrite in place or append. -/
def objSet : List (String × JsValue) → String → JsValue → List (String × JsValue)
  | [], k, v => [(k, v)]
  | p :: rest, k, v => if p.1 = k then (k, v) :: rest else p :: objSet rest k v

/-- Substring test on character lists (`String.prototype.includes`). -/
def listSubstr : List Char → List Char → Bool
  | _, [] => true
  | [], _ :: _ => false
  | c :: cs, needle =>
      listStartsWith (c :: cs) needle || listSubstr cs needle

/-- `String.prototype.includes`. -/
def jsIncludes (s sub : String) : Bool :=
  listSubstr s.data sub.data

/-- Abstract interface to the JS host runtime for the primitives the
engine delegates to it: `parseFloat(x).toString()`, `new Date` parsing to
an ISO instant (`none` = invalid date), `new URL` validity, `JSON.parse`
validity, `JSON.parse` yielding an array, and `parseFloat` comparison used
by numeric filters. -/
structure JsHost where
  parseFloatToString : String → String
  dateToISO : String → Option String
  urlValid : String → Bool
  jsonValid : String → Bool
  jsonIsArray : String → Bool
  floatLt : String → String → Bool

/-- Per-field transform options (`mapping.transform`); `trim` is applied
unless explicitly `false`. -/
structure Transform where
  trim : Option Bool
  lowercase : Bool
  uppercase : Bool
  defaultValue : Option String
  ignoreEmpty : Bool
deriving DecidableEq

/-- The `mapping.transform || {}` fallback: every option undefined. -/
def emptyTransform : Transform :=
  ⟨none, false, false, none, false⟩

/-- One field mapping of the feed configuration. -/
structure FieldMapping where
  csvColumn : String
  shopifyField : String
  fieldType : String
  metafieldNamespace : String
  metafieldKey : String
  metafieldType : String
  transform : Option Transform
deriving DecidableEq

/-- The feed matching rule `{column, type}`. -/
structure MatchingConfig where
  column : String
  type : String
deriving DecidableEq

/-- A conditional value-mapping rule of the feed configuration
(`feed.valueMappings`, Feed model). -/
structure ValueMapping where
  sourceField : String
  sourceCsvColumn : String
  sourceValue : String
  targetField : String
  targetValue : String
  targetMetafieldNamespace : String
  targetMetafieldKey : String
  targetMetafieldType : String
deriving DecidableEq

/-- `MappingEngine.isEmpty` on a string-or-null value. -/
def isEmptyVal : Option String → Bool
  | none => true
  | some s => s = "" || jsTrim s = ""

/-- `MappingEngine.applyTransformations`: missing values pick up the
default, strings are trimmed (unless disabled), case-folded, and replaced
by the default when empty. -/
def applyTransformations (value : Option String) (t : Transform) : Option String :=
  match value with
  | none => jsOrNull t.defaultValue
  | some s =>
      let s1 := if t.trim = some false then s else jsTrim s
      let s2 := if t.lowercase then jsToLower s1
                else if t.uppercase then jsToUpper s1 else s1
      if isEmptyVal (some s2) && jsTruthy t.defaultValue then t.defaultValue
      else some s2

/-- Identifier extracted by `MappingEngine.getIdentifier`. -/
structure Identifier where
  idType : String
  value : Option String
deriving DecidableEq

/-- `MappingEngine.getIdentifier`: a falsy row value (missing, `null` or
`""`) yields `null`, anything else is trimmed. -/
def getIdentifier (csvRow : CsvRow) (matchingConfig : MatchingConfig) : Identifier :=
  let v := rowLookup csvRow matchingConfig.column
  ⟨matchingConfig.type,
    match v with
    | none => none
    | some s => if s = "" then none else some (jsTrim s)⟩

/-- `MappingEngine.mapProductField`: route one transformed value into the
product object, with the field-specific handling of `tags`, `status` and
`images`. -/
def mapProductField (product : List (String × JsValue)) (field : String)
    (value : Option String) : List (String × JsValue) :=
  if field = "title" ∨ field = "body_html" ∨ field = "handle" ∨ field = "vendor" ∨
      field = "product_type" then
    objSet product field (optToJs value)
  else if field = "tags" then
    match value with
    | some s =>
        objSet product "tags"
          (JsValue.vArr ((jsSplit ',' s).map (fun t => JsValue.vStr (jsTrim t))))
    | none => product
  else if field = "status" then
    match value with
    | some s =>
        let norm := jsToLower s
        if norm = "active" ∨ norm = "draft" ∨ norm = "archived" then
          objSet product "status" (JsValue.vStr norm)
        else product
    | none => product
  else if field = "images" ∨ field = "image" then
    let withImages :=
      match objGet product "images" with
      | some _ => product
      | none => objSet product "images" (JsValue.vArr [])
    match value with
    | some s =>
        let urls := (jsSplit ',' s).map jsTrim
        match objGet withImages "images" with
        | some (JsValue.vArr l) =>
            objSet withImages "images"
              (JsValue.vArr (l ++ urls.map (fun u => JsValue.vObj [("src", JsValue.vStr u)])))
        | _ => withImages
    | none => withImages
  else
    objSet product field (optToJs value)

/-- Digit run converted to a natural number (helper of the `parseInt`
embedding). -/
def digitsToNat (l : List Char) : Nat :=
  l.foldl (fun acc c => acc * 10 + (c.toNat - 48)) 0

/-- `parseInt(value, 10).toString()`: leading whitespace and sign, then
leading decimal digits; no digits gives `"NaN"`. -/
def jsParseIntToString (s : String) : String :=
  let l := s.data.dropWhile isJsWs
  let neg := listStartsWith l ['-']
  let l1 := if listStartsWith l ['-'] || listStartsWith l ['+'] then l.drop 1 else l
  let ds := l1.takeWhile Char.isDigit
  if ds = [] then "NaN"
  else
    let n := digitsToNat ds
    if n = 0 then "0"
    else if neg then "-" ++ jsNumToString n else jsNumToString n

/-- `JSON.stringify` of a plain string (escaping only the quote and the
backslash; control characters do not occur in this pipeline). -/
def jsonQuote (s : String) : String :=
  "\"" ++ ⟨s.data.foldr (fun c acc =>
      if c = '"' ∨ c = '\\' then '\\' :: c :: acc else c :: acc) []⟩ ++ "\""

/-- `JSON.stringify` of a list of strings. -/
def jsonStringifyStrings (l : List String) : String :=
  "[" ++ String.intercalate "," (l.map jsonQuote) ++ "]"

/-- `MappingEngine.formatMetafieldValue`: type-directed formatting of a
metafield value; empty input always yields `null`. -/
def formatMetafieldValue (host : JsHost) (value : Option String) (mtype : String) :
    Option String :=
  if isEmptyVal value then none
  else
    match value with
    | none => none
    | some v =>
        if mtype = "number_integer" then some (jsParseIntToString v)
        else if mtype = "number_decimal" then some (host.parseFloatToString v)
        else if mtype = "boolean" then
          let norm := jsToLower v
          some (if norm = "true" ∨ norm = "1" ∨ norm = "yes" ∨ norm = "on"
                then "true" else "false")
        else if mtype = "json" then
          if host.jsonValid v then some v else some (jsonQuote v)
        else if mtype = "date" ∨ mtype = "date_time" then
          host.dateToISO v
        else if mtype = "url" then
          if host.urlValid v then some v else none
        else if jsStartsWith mtype "list." then
          if host.jsonIsArray v then some v
          else
            let items :=
              if jsIncludes v "|" then jsSplit '|' v
              else if jsIncludes v ";" then jsSplit ';' v
              else jsSplit ',' v
            some (jsonStringifyStrings ((items.map jsTrim).filter (fun x => x ≠ "")))
        else some v

/-- A metafield entry produced by `transformRow` (the JS field `namespace`
is rendered `ns`). -/
structure Metafield where
  ns : String
  key : String
  mtype : String
  value : Option String
deriving DecidableEq

/-- The record returned by `MappingEngine.transformRow`. -/
structure ProductData where
  product : List (String × JsValue)
  metafields : List Metafield
  identifier : Identifier

/-- Per-mapping step of the `mappings.forEach` loop in `transformRow`. -/
def transformRowStep (host : JsHost) (csvRow : CsvRow)
    (acc : List (String × JsValue) × List Metafield) (mapping : FieldMapping) :
    List (String × JsValue) × List Metafield :=
  let csvValue := resolveRawValue mapping.csvColumn csvRow
  let t := mapping.transform.getD emptyTransform
  let transformedValue := applyTransformations csvValue t
  if t.ignoreEmpty && isEmptyVal transformedValue then acc
  else if mapping.fieldType = "product" then
    (mapProductField acc.1 mapping.shopifyField transformedValue, acc.2)
  else if mapping.fieldType = "metafield" then
    (acc.1, acc.2 ++ [⟨mapping.metafieldNamespace, mapping.metafieldKey,
        mapping.metafieldType,
        formatMetafieldValue host transformedValue mapping.metafieldType⟩])
  else acc

/-- `MappingEngine.transformRow(csvRow, mappings, matchingConfig)`.  Note
the signature: the engine takes no value-mapping parameter. -/
def transformRow (host : JsHost) (csvRow : CsvRow) (mappings : List FieldMapping)
    (matchingConfig : MatchingConfig) : ProductData :=
  let res := mappings.foldl (transformRowStep host csvRow) ([], [])
  ⟨res.1, res.2, getIdentifier csvRow matchingConfig⟩

/-- The worker's call site
`mappingEngine.transformRow(row, feed.mappings, feed.matching, feed.valueMappings || [])`
(queue-worker.js): JavaScript silently discards the fourth argument
because `transformRow` declares only three parameters, so the value-mapping
rules never reach the engine. -/
def transformRowWorkerCall (host : JsHost) (csvRow : CsvRow)
    (mappings : List FieldMapping) (matchingConfig : MatchingConfig)
    (_valueMappings : List ValueMapping) : ProductData :=
  transformRow host csvRow mappings matchingConfig

/-- One feed filter. -/
structure FeedFilter where
  column : String
  operator : String
  value : String
  action : String
deriving DecidableEq

/-- `MappingEngine.evaluateFilter`. -/
def evaluateFilter (host : JsHost) (csvValue : Option String) (op : String)
    (filterValue : String) : Bool :=
  let ncv := jsToLower (csvValue.getD "")
  let nfv := jsToLower filterValue
  if op = "equals" then ncv = nfv
  else if op = "not_equals" then ncv ≠ nfv
  else if op = "contains" then jsIncludes ncv nfv
  else if op = "not_contains" then ! jsIncludes ncv nfv
  else if op = "greater_than" then host.floatLt filterValue (csvValue.getD "")
  else if op = "less_than" then host.floatLt (csvValue.getD "") filterValue
  else true

/-- `MappingEngine.applyFilters`: the first failing filter excludes the
row; no filters means include. -/
def applyFilters (host : JsHost) (csvRow : CsvRow) : List FeedFilter → Bool
  | [] => true
  | f :: rest =>
      let passes := evaluateFilter host (rowLookup csvRow f.column) f.operator f.value
      if f.action = "include" ∧ passes = false then false
      else if f.action = "exclude" ∧ passes = true then false
      else applyFilters host csvRow rest

/-! ## Diff engine (`diff-engine.js`) -/

mutual

/-- `value.toString()` on a `JsValue`; array elements join with `","` and
`null`/`undefined` elements stringify to the empty chunk, objects give
`"[object Object]"`.  (`vNull` itself only ever reaches this function
through the array-join rule.) -/
def jsToString : JsValue → String
  | .vNull => ""
  | .vStr s => s
  | .vBool b => if b then "true" else "false"
  | .vObj _ => "[object Object]"
  | .vArr l => String.intercalate "," (jsToStringList l)

/-- Elementwise `toString` of an array value. -/
def jsToStringList : List JsValue → List String
  | [] => []
  | v :: rest => jsToString v :: jsToStringList rest

end

mutual

/-- `JSON.stringify` of a `JsValue` (used by `valuesEqual` for the object
branch). -/
def jsonStringify : JsValue → String
  | .vNull => "null"
  | .vStr s => jsonQuote s
  | .vBool b => if b then "true" else "false"
  | .vArr l => "[" ++ String.intercalate "," (jsonStringifyList l) ++ "]"
  | .vObj fields => "\x7b" ++ String.intercalate "," (jsonStringifyObj fields) ++ "\x7d"

/-- `JSON.stringify` of the elements of an array. -/
def jsonStringifyList : List JsValue → List String
  | [] => []
  | v :: rest => jsonStringify v :: jsonStringifyList rest

/-- `JSON.stringify` of the properties of an object. -/
def jsonStringifyObj : List (String × JsValue) → List String
  | [] => []
  | p :: rest => (jsonQuote p.1 ++ ":" ++ jsonStringify p.2) :: jsonStringifyObj rest

end

/-- `DiffEngine.isNullOrEmpty`: `null`, `undefined`, the empty or
whitespace-only string, and the empty array. -/
def isNullOrEmpty : JsValue → Bool
  | .vNull => true
  | .vStr s => s = "" || jsTrim s = ""
  | .vArr l => l.isEmpty
  | _ => false

/-- `DiffEngine.normalizeValue`: `null` becomes `""`; anything else is
stringified, trimmed, lowercased, and has whitespace runs collapsed to a
single space. -/
def normalizeValue (v : JsValue) : String
  := match v with
  | .vNull => ""
  | w => ⟨replaceRuns isJsWs ' ' (jsTrimList (jsToLower (jsToString w)).data)⟩

/-- Insertion into a sorted list of strings (helper of the `.sort()`
embedding). -/
def insertSorted (s : String) : List String → List String
  | [] => [s]
  | t :: rest => if s ≤ t then s :: t :: rest else t :: insertSorted s rest

/-- Default JS `Array.prototype.sort` on strings (lexicographic). -/
def sortStrings : List String → List String
  | [] => []
  | s :: rest => insertSorted s (sortStrings rest)

/-- `DiffEngine.arraysEqual`: non-arrays are wrapped, lengths must agree,
then the normalized elements are compared as sorted multisets. -/
def arraysEqual (a b : JsValue) : Bool :=
  let l1 := match a with | .vArr l => l | v => [v]
  let l2 := match b with | .vArr l => l | v => [v]
  if l1.length ≠ l2.length then false
  else sortStrings (l1.map normalizeValue) = sortStrings (l2.map normalizeValue)

/-- Is the value a JS array. -/
def isArr : JsValue → Bool
  | .vArr _ => true
  | _ => false

/-- `typeof value === 'object'` for the non-null non-array values reaching
the object branch of `valuesEqual`. -/
def isObjTy : JsValue → Bool
  | .vObj _ => true
  | _ => false

/-- `DiffEngine.valuesEqual` (the `field` parameter is unused by the
source as well). -/
def valuesEqual (v1 v2 : JsValue) (_field : String) : Bool :=
  if isNullOrEmpty v1 && isNullOrEmpty v2 then true
  else if isNullOrEmpty v1 || isNullOrEmpty v2 then false
  else if isArr v1 || isArr v2 then arraysEqual v1 v2
  else if isObjTy v1 || isObjTy v2 then jsonStringify v1 = jsonStringify v2
  else normalizeValue v1 = normalizeValue v2

/-- `DiffEngine.formatValue`. -/
def formatValue (v : JsValue) : String :=
  if isNullOrEmpty v then "<empty>"
  else match v with
  | .vArr l => String.intercalate ", " (jsToStringList l)
  | .vObj _ => jsonStringify v
  | w => jsToString w

/-- One entry of the change list returned by the diff engine. -/
structure Change where
  field : String
  oldValue : Option String
  newValue : Option String
  fieldType : String
  metafield : Option Metafield
deriving DecidableEq

/-- `DiffEngine.compareProductFields`: iterate the keys of the new data,
comparing against the existing product. -/
def compareProductFields (existing newData : List (String × JsValue)) : List Change :=
  (newData.map Prod.fst).foldl (fun changes field =>
    let oldValue := (objGet existing field).getD .vNull
    let newValue := (objGet newData field).getD .vNull
    if valuesEqual oldValue newValue field then changes
    else changes ++ [⟨field, some (formatValue oldValue), some (formatValue newValue),
        "product", none⟩]) []

/-- `DiffEngine.compareMetafields`: a metafield absent from the existing
record is an addition (`oldValue = null`); a present one is compared by
value. -/
def compareMetafields (existingMetafields newMetafields : List Metafield) : List Change :=
  newMetafields.foldl (fun changes newMeta =>
    match existingMetafields.find? (fun m =>
        m.ns == newMeta.ns && m.key == newMeta.key) with
    | none =>
        changes ++ [⟨newMeta.ns ++ "." ++ newMeta.key, none,
          some (formatValue (optToJs newMeta.value)), "metafield", some newMeta⟩]
    | some existing =>
        if valuesEqual (optToJs existing.value) (optToJs newMeta.value) "metafield" then
          changes
        else
          changes ++ [⟨newMeta.ns ++ "." ++ newMeta.key,
            some (formatValue (optToJs existing.value)),
            some (formatValue (optToJs newMeta.value)), "metafield", some newMeta⟩]) []

/-- The shape of an existing catalog record as seen by the diff engine:
its core fields and its metafields (`existingProduct.metafields || []`). -/
structure ExistingProduct where
  fields : List (String × JsValue)
  metafields : List Metafield

/-- `DiffEngine.compareProduct` (the `mappings` parameter is unused by the
source as well). -/
def compareProduct (existingProduct : ExistingProduct) (newProductData : ProductData)
    (_mappings : List FieldMapping) : List Change :=
  compareProductFields existingProduct.fields newProductData.product ++
    compareMetafields existingProduct.metafields newProductData.metafields

/-- `DiffEngine.hasChanges`. -/
def hasChanges (existingProduct : ExistingProduct) (newProductData : ProductData)
    (mappings : List FieldMapping) : Bool :=
  (compareProduct existingProduct newProductData mappings).length > 0

/-! ## Job model (`src/server/models/Job.js`) and stale-job recovery
(`scheduler.js`, queue event listeners)

The Mongoose schema validates `status` against its enum on every `save`;
fields that are not part of the schema (`lastProcessedRow`, `resumeCount`,
`resumedAt`) are silently dropped by strict mode and never persisted. -/

/-- The `enum` of `jobSchema.status`. -/
def jobStatusEnum : List String :=
  ["pending", "processing", "completed", "failed", "cancelled"]

/-- `jobSchema.progress`. -/
structure JobProgress where
  current : Nat
  total : Nat
  percentage : Nat
deriving DecidableEq

/-- `jobSchema.results`. -/
structure JobResults where
  totalRows : Nat
  processed : Nat
  created : Nat
  updated : Nat
  skipped : Nat
  failed : Nat
deriving DecidableEq

/-- All-zero results (the schema defaults). -/
def zeroResults : JobResults :=
  ⟨0, 0, 0, 0, 0, 0⟩

/-- `jobSchema.error`. -/
structure JobError where
  message : String
  code : String
deriving DecidableEq

/-- The persisted Job document (schema fields used by the pipeline). -/
structure JobDoc where
  status : String
  progress : JobProgress
  results : JobResults
  error : Option JobError
deriving DecidableEq

/-- Mongoose `save()`: enum validation of `status`; a value outside the
schema enum raises a `ValidationError`. -/
def saveJob (doc : JobDoc) : Except String JobDoc :=
  if jobStatusEnum.contains doc.status then Except.ok doc
  else Except.error ("ValidationError: `" ++ doc.status ++
    "` is not a valid enum value for path `status`.")

/-- Per-job body of `FeedScheduler.cleanupStaleJobs` for a job stuck in
`processing`: with progress it is marked `interrupted` and (if the feed is
active) a resume dispatch carrying `resumeJobId` is enqueued after the
save; with no progress it is marked `failed`.  (The JS code also assigns
`job.lastProcessedRow = job.progress.current`, a path outside the schema
that strict mode drops.)  The result carries the saved document and the
`resumeJobId` of the enqueued dispatch, if any. -/
def staleJobStep (job : JobDoc) (jobId : Nat) (feedActive : Bool) :
    Except String (JobDoc × Option Nat) :=
  if job.progress.current > 0 then
    match saveJob { job with
        status := "interrupted",
        error := some ⟨"Job interrupted at row " ++ jsNumToString job.progress.current ++
          ". Will be resumed.", "JOB_INTERRUPTED"⟩ } with
    | Except.error e => Except.error e
    | Except.ok saved =>
        Except.ok (saved, if feedActive then some jobId else none)
  else
    match saveJob { job with
        status := "failed",
        error := some ⟨"Job stalled with no progress and was marked as failed during cleanup",
          "STALE_JOB_CLEANUP"⟩ } with
    | Except.error e => Except.error e
    | Except.ok saved => Except.ok (saved, none)

/-- Body of the queue `failed`-event listener (timeout resume logic): on a
timeout error, a job record with progress is marked `interrupted` and a
resume dispatch is queued after the save succeeds. -/
def timeoutFailedStep (job : JobDoc) (jobId : Nat) : Except String (JobDoc × Option Nat) :=
  if job.progress.current > 0 then
    match saveJob { job with
        status := "interrupted",
        error := some ⟨"Job timed out at row " ++ jsNumToString job.progress.current ++
          ". Will be resumed automatically.", "JOB_TIMEOUT_RESUME"⟩ } with
    | Except.error e => Except.error e
    | Except.ok saved => Except.ok (saved, some jobId)
  else
    Except.ok (job, none)

/-! ## Remote sync client (`shopify-sync.js`) and worker loop
(`queue-worker.js`)

The remote catalog is modelled as a keyed store of records; `syncProduct`
mirrors the orchestration of the sync client: lookup by identifier, then
skip / update / create according to the options.  The MD5 row hash and the
cancellation status read are supplied by the environment. -/

/-- Feed options consumed by the worker. -/
structure FeedOptions where
  skipUnchangedFile : Bool
  skipUnchangedRows : Bool
  updateExisting : Bool
  createNew : Bool
  batchSize : Nat
deriving DecidableEq

/-- The feed configuration fields read by the row loop. -/
structure FeedCfg where
  id : Nat
  matching : MatchingConfig
  mappings : List FieldMapping
  filters : List FeedFilter
  valueMappings : List ValueMapping
  options : FeedOptions

/-- One record of the remote catalog. -/
structure CatalogProduct where
  id : Nat
  fields : List (String × JsValue)
  metafields : List Metafield

/-- The remote catalog: records keyed by identifier value, plus the id
counter for creations. -/
structure Catalog where
  products : List (String × CatalogProduct)
  nextId : Nat

/-- Catalog lookup (`ShopifySync.findProduct`): by the identifier value. -/
def findProductInCatalog (catalog : Catalog) (ident : Identifier) : Option CatalogProduct :=
  match ident.value with
  | none => none
  | some v => (catalog.products.find? (fun p => p.1 == v)).map Prod.snd

/-- Upsert of metafields on a stored record, keyed by (namespace, key). -/
def upsertMetas : List Metafield → List Metafield → List Metafield
  | ms, [] => ms
  | ms, n :: rest =>
      let replaced :=
        if ms.any (fun m => m.ns == n.ns && m.key == n.key) then
          ms.map (fun m => if m.ns == n.ns && m.key == n.key then n else m)
        else ms ++ [n]
      upsertMetas replaced rest

/-- Application of a product update to a stored record (field writes and
metafield bulk-set of the remote API). -/
def applyUpdate (existing : CatalogProduct) (productData : ProductData) : CatalogProduct :=
  { existing with
    fields := productData.product.foldl (fun fs p => objSet fs p.1 p.2) existing.fields,
    metafields := upsertMetas existing.metafields productData.metafields }

/-- Catalog write-back of an updated record. -/
def catalogSet (catalog : Catalog) (key : String) (record : CatalogProduct) : Catalog :=
  { catalog with
    products := catalog.products.map (fun p => if p.1 == key then (key, record) else p) }

/-- Result of `ShopifySync.syncProduct`: the chosen operation and the
record it acted on (`skip` on a missing record carries none, which is why
the worker's cache upsert is guarded by `syncResult.product`). -/
structure SyncResult where
  operation : String
  product : Option CatalogProduct

/-- `ShopifySync.syncProduct`: lookup, then skip / update / create. -/
def syncProduct (catalog : Catalog) (productData : ProductData) (ident : Identifier)
    (updateExisting createNew : Bool) : SyncResult × Catalog :=
  match findProductInCatalog catalog ident with
  | some existing =>
      if updateExisting = false then (⟨"skip", some existing⟩, catalog)
      else
        (⟨"update", some existing⟩,
          catalogSet catalog (ident.value.getD "") (applyUpdate existing productData))
  | none =>
      if createNew = false then (⟨"skip", none⟩, catalog)
      else
        let newProduct : CatalogProduct :=
          ⟨catalog.nextId, productData.product, productData.metafields⟩
        (⟨"create", some newProduct⟩,
          ⟨catalog.products ++ [(ident.value.getD "", newProduct)], catalog.nextId + 1⟩)

/-- One `JobRow` log document as written by `FeedProcessor.logRow` (row
number, operation, derived status, error message). -/
structure LogRow where
  rowNumber : Nat
  operation : String
  status : String
  errorMsg : Option String
deriving DecidableEq

/-- Append a row log entry (`FeedProcessor.logRow`). -/
def logRow (log : List LogRow) (rowNumber : Nat) (operation : String)
    (errorMsg : Option String) : List LogRow :=
  log ++ [⟨rowNumber, operation, if operation = "error" then "error" else "success", errorMsg⟩]

/-- The worker's in-memory view of the Job document.  `lastProcessedRow`
is kept here as the queue-worker code writes and reads it; the Mongoose
schema does not declare this path, so the persisted document never
actually carries it (see the Job-schema theorems). -/
structure WorkerDoc where
  status : String
  progressCurrent : Nat
  progressTotal : Nat
  progressPercentage : Nat
  resultsSnap : JobResults
  lastProcessedRow : Nat
deriving DecidableEq

/-- `jobSchema.methods.updateProgress` (the percentage models
`Math.round((current/total)*100)`). -/
def updateProgress (doc : WorkerDoc) (current total : Nat) : WorkerDoc :=
  { doc with
    progressCurrent := current,
    progressTotal := total,
    progressPercentage := if total > 0 then (current * 100 + total / 2) / total else 0 }

/-- Worker environment: the JS host, the MD5 row hash (modelled
abstractly), the cancellation status read `Job.findById(...)` performed
after completing the row with the given row number, and injection of
remote-call failures per row. -/
structure WorkerEnv where
  host : JsHost
  generateHash : CsvRow → String
  cancelAfterRow : Nat → Bool
  syncFails : CsvRow → Bool

/-- Mutable state of the row loop: the aggregate counters, the dynamically
added `unchangedSkipped` counter, the remote catalog, the row cache
collection, the row log, and the Job document. -/
structure LoopState where
  results : JobResults
  unchangedSkipped : Nat
  catalog : Catalog
  rowCache : List RowCacheEntry
  log : List LogRow
  doc : WorkerDoc

/-- Row-loop body of `FeedProcessor.processRows`, one constructor case per
iteration.  The boolean of the result is the cancelled-return flag. -/
def processRowsGo (cfg : FeedCfg) (env : WorkerEnv) (isPreview : Bool) (startRow : Nat)
    (totalRows : Nat) : List CsvRow → Nat → LoopState → LoopState × Bool
  | [], _, st => (st, false)
  | row :: rest, i, st =>
      let rowNumber := i + 1
      -- RESUME SUPPORT: skip rows before startRow without side effects
      if i < startRow then
        processRowsGo cfg env isPreview startRow totalRows rest (i + 1) st
      else
        -- filters
        if applyFilters env.host row cfg.filters = false then
          let st := { st with
            results := { st.results with skipped := st.results.skipped + 1 },
            log := logRow st.log rowNumber "skip" none }
          processRowsGo cfg env isPreview startRow totalRows rest (i + 1) st
        else
          let productData :=
            transformRowWorkerCall env.host row cfg.mappings cfg.matching cfg.valueMappings
          -- missing identifier: count failed, log an error row, continue
          if jsTruthy productData.identifier.value = false then
            let st := { st with
              results := { st.results with failed := st.results.failed + 1 },
              log := logRow st.log rowNumber "error" (some "Missing identifier value") }
            processRowsGo cfg env isPreview startRow totalRows rest (i + 1) st
          else
            -- row-cache short circuit (real sync only)
            if isPreview = false ∧ cfg.options.skipUnchangedRows = true ∧
                (RowCache.checkRow st.rowCache cfg.id
                  (productData.identifier.value.getD "")
                  (env.generateHash row)).changed = false then
              let st := { st with
                results := { st.results with skipped := st.results.skipped + 1 },
                unchangedSkipped := st.unchangedSkipped + 1,
                log := logRow st.log rowNumber "skip" none }
              processRowsGo cfg env isPreview startRow totalRows rest (i + 1) st
            else
              -- a thrown remote lookup/write inside the try block is
              -- caught per row: count failed, log an error row, continue
              if env.syncFails row then
                let st := { st with
                  results := { st.results with failed := st.results.failed + 1 },
                  log := logRow st.log rowNumber "error" (some "sync error") }
                processRowsGo cfg env isPreview startRow totalRows rest (i + 1) st
              else
                -- preview simulation or real sync
                let stepped :=
                  if isPreview then
                    match findProductInCatalog st.catalog productData.identifier with
                    | some existingProduct =>
                        let changes := compareProduct
                          ⟨existingProduct.fields, existingProduct.metafields⟩
                          productData cfg.mappings
                        if changes.length > 0 then
                          { st with
                            results := { st.results with updated := st.results.updated + 1 },
                            log := logRow st.log rowNumber "update" none }
                        else
                          { st with
                            results := { st.results with skipped := st.results.skipped + 1 },
                            log := logRow st.log rowNumber "skip" none }
                    | none =>
                        { st with
                          results := { st.results with created := st.results.created + 1 },
                          log := logRow st.log rowNumber "create" none }
                  else
                    let syncRes := syncProduct st.catalog productData productData.identifier
                      cfg.options.updateExisting cfg.options.createNew
                    let st1 := { st with
                      catalog := syncRes.2,
                      results :=
                        if syncRes.1.operation = "create" then
                          { st.results with created := st.results.created + 1 }
                        else if syncRes.1.operation = "update" then
                          { st.results with updated := st.results.updated + 1 }
                        else
                          { st.results with skipped := st.results.skipped + 1 },
                      log := logRow st.log rowNumber syncRes.1.operation none }
                    -- cache upsert only after a sync that returned a product
                    if cfg.options.skipUnchangedRows = true ∧ syncRes.1.product.isSome then
                      { st1 with
                        rowCache := RowCache.upsertRow st1.rowCache cfg.id
                          (productData.identifier.value.getD "")
                          productData.identifier.idType
                          (env.generateHash row)
                          ((syncRes.1.product.map (fun p => jsNumToString p.id))) }
                    else st1
                -- cancellation poll after the row's work
                if env.cancelAfterRow rowNumber then (stepped, true)
                else
                  let stepped := { stepped with
                    results := { stepped.results with
                      processed := stepped.results.processed + 1 } }
                  let stepped := { stepped with
                    doc := updateProgress stepped.doc rowNumber totalRows }
                  -- periodic resume checkpoint: every 50 rows persist the
                  -- 0-indexed row number and a snapshot of the counters
                  let stepped :=
                    if rowNumber % 50 = 0 then
                      { stepped with doc := { stepped.doc with
                          lastProcessedRow := i,
                          resultsSnap := stepped.results } }
                    else stepped
                  processRowsGo cfg env isPreview startRow totalRows rest (i + 1) stepped

/-- `FeedProcessor.processRows`: initialize the counters (restoring the
persisted partial results when resuming), run the loop, and issue the
final progress update on normal completion. -/
def processRows (cfg : FeedCfg) (env : WorkerEnv) (isPreview : Bool)
    (rows : List CsvRow) (startRow : Nat) (st0 : LoopState) : LoopState × Bool :=
  let results0 : JobResults :=
    if startRow > 0 then
      { totalRows := rows.length,
        processed := st0.doc.resultsSnap.processed,
        created := st0.doc.resultsSnap.created,
        updated := st0.doc.resultsSnap.updated,
        skipped := st0.doc.resultsSnap.skipped,
        failed := st0.doc.resultsSnap.failed }
    else
      { zeroResults with totalRows := rows.length }
  let st1 := { st0 with results := results0, unchangedSkipped := 0 }
  let out := processRowsGo cfg env isPreview startRow rows.length rows 0 st1
  if out.2 then out
  else ({ out.1 with doc := updateProgress out.1.doc rows.length rows.length }, false)

/-- The row phase of `FeedProcessor.process`: set up the Job record (new
job, or resume from an interrupted record with `startRow =
lastProcessedRow` — the `|| 0` fallback), run `processRows`, then
`markCompleted`.  On a cancelled return the loop's value is the wrapper
`{status: 'cancelled', results: {...}}`, whose keys are not result fields,
so `markCompleted` casts them away and the persisted counters keep their
previous value while the status still becomes `completed`. -/
def processJobRows (cfg : FeedCfg) (env : WorkerEnv) (isPreview : Bool)
    (rows : List CsvRow) (resumeDoc : Option WorkerDoc) (catalog : Catalog)
    (rowCache : List RowCacheEntry) : LoopState × Bool :=
  let doc0 : WorkerDoc :=
    match resumeDoc with
    | some jd => { jd with status := "processing" }
    | none => ⟨"processing", 0, 0, 0, zeroResults, 0⟩
  let startRow :=
    match resumeDoc with
    | some jd => jd.lastProcessedRow
    | none => 0
  let st0 : LoopState := ⟨zeroResults, 0, catalog, rowCache, [], doc0⟩
  let out := processRows cfg env isPreview rows startRow st0
  let final := out.1
  let completedDoc :=
    if out.2 then
      { final.doc with status := "completed" }
    else
      { final.doc with status := "completed", resultsSnap := final.results }
  ({ final with doc := completedDoc }, out.2)

/-- The timeout/stale interruption mutation as written in the queue
`failed`-listener and in `cleanupStaleJobs`: status `interrupted` and
`lastProcessedRow = progress.current` (the 1-indexed number of completed
rows).  This models the worker-side code as written, granting that the
document could persist those fields; the Job-schema theorems show the
actual save is rejected. -/
def interruptDoc (doc : WorkerDoc) : WorkerDoc :=
  { doc with status := "interrupted", lastProcessedRow := doc.progressCurrent }

/-! ## Exit paths of `FeedProcessor.process` (temp-file cleanup) -/

/-- Outcome flags of one `process` invocation's control-flow skeleton. -/
structure ProcessPathEnv where
  feedAndShopOk : Bool
  resumeOk : Bool
  downloadOk : Bool
  skipUnchangedFile : Bool
  checksumUnchanged : Bool
  parseOk : Bool
  csvValid : Bool
  mappingsValid : Bool
  rowsOk : Bool
deriving DecidableEq

/-- What a `process` run did on its way out. -/
structure ProcessExit where
  downloaded : Bool
  tempFileDeleted : Bool
  outcome : String
deriving DecidableEq

/-- Control-flow skeleton of `FeedProcessor.process` with respect to the
download and the temp-file cleanup: exceptions reach the catch block,
which deletes the file only when `localFilePath` was assigned; the
unchanged-file branch returns directly; the success path deletes at the
end. -/
def processPaths (e : ProcessPathEnv) : ProcessExit :=
  if e.feedAndShopOk = false then ⟨false, false, "failed"⟩
  else if e.resumeOk = false then ⟨false, false, "failed"⟩
  else if e.downloadOk = false then ⟨false, false, "failed"⟩
  else if e.skipUnchangedFile = true ∧ e.checksumUnchanged = true then
    ⟨true, false, "skipped"⟩
  else if e.parseOk = false ∨ e.csvValid = false ∨ e.mappingsValid = false then
    ⟨true, true, "failed"⟩
  else if e.rowsOk = false then ⟨true, true, "failed"⟩
  else ⟨true, true, "success"⟩

/-! ## Concrete scenario instances -/

/-- A fixed host instance for concrete evaluations (its choices are
irrelevant to the scenarios below, which use neither floats, dates, URLs
nor JSON metafields). -/
def trivialHost : JsHost :=
  ⟨fun s => s, fun _ => none, fun _ => false, fun _ => false, fun _ => false,
    fun _ _ => false⟩

/-- A feed mapping `title <- name`, matching on the `sku` column, all
cache/skip options off. -/
def cfgBasic : FeedCfg :=
  ⟨1, ⟨"sku", "sku"⟩,
    [⟨"name", "title", "product", "", "", "", none⟩],
    [], [], ⟨false, false, true, true, 100⟩⟩

/-- Environment with no cancellation and no failures. -/
def envQuiet : WorkerEnv :=
  ⟨trivialHost, fun _ => "hash", fun _ => false, fun _ => false⟩

/-- Environment in which the status poll reads `cancelled` from row 4
onward (a cancellation request issued after row 3 completed). -/
def envCancelAfter3 : WorkerEnv :=
  ⟨trivialHost, fun _ => "hash", fun n => decide (4 ≤ n), fun _ => false⟩

/-- An empty remote catalog. -/
def catalogEmpty : Catalog :=
  ⟨[], 1⟩

/-- A two-row CSV: `sku`/`name` pairs. -/
def rowsTwo : List CsvRow :=
  [[("sku", some "A1"), ("name", some "Widget")],
   [("sku", some "B2"), ("name", some "Gadget")]]

/-- Ten distinct rows. -/
def rowsTen : List CsvRow :=
  (List.range 10).map (fun j =>
    [("sku", some ("S" ++ jsNumToString (j + 1))), ("name", some "X")])

/-- An uninterrupted run of a job over `rows`. -/
def onePassRun (cfg : FeedCfg) (env : WorkerEnv) (rows : List CsvRow)
    (catalog : Catalog) (cache : List RowCacheEntry) : LoopState × Bool :=
  processJobRows cfg env false rows none catalog cache

/-- The loop state after the first `k` iterations of a run that is then
interrupted (crash/timeout): exactly the first `k` iterations of
`processRowsGo` with the full row count. -/
def interruptAfter (cfg : FeedCfg) (env : WorkerEnv) (rows : List CsvRow) (k : Nat)
    (catalog : Catalog) (cache : List RowCacheEntry) : LoopState :=
  let doc0 : WorkerDoc := ⟨"processing", 0, 0, 0, zeroResults, 0⟩
  let st1 : LoopState :=
    ⟨{ zeroResults with totalRows := rows.length }, 0, catalog, cache, [], doc0⟩
  (processRowsGo cfg env false 0 rows.length (rows.take k) 0 st1).1

/-- Interrupt after `k` rows, apply the timeout-interrupt mutation to the
Job document, then dispatch the resume run against the remote state left
behind by the first pass. -/
def resumeRun (cfg : FeedCfg) (env : WorkerEnv) (rows : List CsvRow) (k : Nat)
    (catalog : Catalog) (cache : List RowCacheEntry) : LoopState × Bool :=
  let stI := interruptAfter cfg env rows k catalog cache
  processJobRows cfg env false rows (some (interruptDoc stI.doc)) stI.catalog stI.rowCache

/-- The state produced by one non-cancelled iteration of the row loop
(the body of `processRowsGo` without the early cancelled return), used to
reason about the loop one row at a time. -/
def rowIter (cfg : FeedCfg) (env : WorkerEnv) (isPreview : Bool) (i : Nat)
    (totalRows : Nat) (row : CsvRow) (st : LoopState) : LoopState :=
  let rowNumber := i + 1
  if applyFilters env.host row cfg.filters = false then
    { st with
      results := { st.results with skipped := st.results.skipped + 1 },
      log := logRow st.log rowNumber "skip" none }
  else
    let productData :=
      transformRowWorkerCall env.host row cfg.mappings cfg.matching cfg.valueMappings
    if jsTruthy productData.identifier.value = false then
      { st with
        results := { st.results with failed := st.results.failed + 1 },
        log := logRow st.log rowNumber "error" (some "Missing identifier value") }
    else
      if isPreview = false ∧ cfg.options.skipUnchangedRows = true ∧
          (RowCache.checkRow st.rowCache cfg.id
            (productData.identifier.value.getD "")
            (env.generateHash row)).changed = false then
        { st with
          results := { st.results with skipped := st.results.skipped + 1 },
          unchangedSkipped := st.unchangedSkipped + 1,
          log := logRow st.log rowNumber "skip" none }
      else
        if env.syncFails row then
          { st with
            results := { st.results with failed := st.results.failed + 1 },
            log := logRow st.log rowNumber "error" (some "sync error") }
        else
          let stepped :=
            if isPreview then
              match findProductInCatalog st.catalog productData.identifier with
              | some existingProduct =>
                  let changes := compareProduct
                    ⟨existingProduct.fields, existingProduct.metafields⟩
                    productData cfg.mappings
                  if changes.length > 0 then
                    { st with
                      results := { st.results with updated := st.results.updated + 1 },
                      log := logRow st.log rowNumber "update" none }
                  else
                    { st with
                      results := { st.results with skipped := st.results.skipped + 1 },
                      log := logRow st.log rowNumber "skip" none }
              | none =>
                  { st with
                    results := { st.results with created := st.results.created + 1 },
                    log := logRow st.log rowNumber "create" none }
            else
              let syncRes := syncProduct st.catalog productData productData.identifier
                cfg.options.updateExisting cfg.options.createNew
              let st1 := { st with
                catalog := syncRes.2,
                results :=
                  if syncRes.1.operation = "create" then
                    { st.results with created := st.results.created + 1 }
                  else if syncRes.1.operation = "update" then
                    { st.results with updated := st.results.updated + 1 }
                  else
                    { st.results with skipped := st.results.skipped + 1 },
                log := logRow st.log rowNumber syncRes.1.operation none }
              if cfg.options.skipUnchangedRows = true ∧ syncRes.1.product.isSome then
                { st1 with
                  rowCache := RowCache.upsertRow st1.rowCache cfg.id
                    (productData.identifier.value.getD "")
                    productData.identifier.idType
                    (env.generateHash row)
                    ((syncRes.1.product.map (fun p => jsNumToString p.id))) }
              else st1
          let stepped := { stepped with
            results := { stepped.results with
              processed := stepped.results.processed + 1 } }
          let stepped := { stepped with
            doc := updateProgress stepped.doc rowNumber totalRows }
          if rowNumber % 50 = 0 then
            { stepped with doc := { stepped.doc with
                lastProcessedRow := i,
                resultsSnap := stepped.results } }
          else stepped

/-! ## Predicates for the header-uniqueness analysis -/

/-- The names already produced for the entries of the `counts` closure of
`uniquifyHeaders`: each recorded base and its numbered suffixes up to the
recorded count. -/
def emittedName (counts : List (String × Nat)) (s : String) : Prop :=
  ∃ p ∈ counts, s = p.1 ∨ ∃ k, 1 ≤ k ∧ k ≤ p.2 ∧ s = p.1 ++ "_" ++ jsNumToString k

/-- No candidate base is itself a numbered suffix `c_k` (`1 ≤ k ≤ bound`)
of a candidate base. -/
def suffixFree (bases : List String) (bound : Nat) : Prop :=
  ∀ b ∈ bases, ∀ c ∈ bases, ∀ k ∈ List.range (bound + 1), 1 ≤ k →
    b ≠ c ++ "_" ++ jsNumToString k

instance (bases : List String) (bound : Nat) : Decidable (suffixFree bases bound) := by
  unfold suffixFree
  infer_instance

/-! # Theorems -/

/-! ## Shared helper lemmas -/

theorem listStartsWith_append (p t : List Char) : listStartsWith (p ++ t) p = true := by
  induction p with
  | nil => simp [listStartsWith]
  | cons c cs ih => simp [listStartsWith, ih]

theorem findOne_upsert_self (store : List RowCacheEntry) (f : Nat) (id t h : String)
    (pid : Option String) :
    ∃ e, RowCache.findOne (RowCache.upsertRow store f id t h pid) f id = some e ∧
      e.rowHash = h := by
  induction store with
  | nil =>
      refine ⟨⟨f, id, t, h, pid, 1⟩, ?_, rfl⟩
      simp [RowCache.upsertRow, RowCache.findOne]
  | cons e rest ih =>
      by_cases hm : e.feed = f ∧ e.identifier = id
      · refine ⟨⟨e.feed, e.identifier, t, h, pid, e.syncCount + 1⟩, ?_, rfl⟩
        simp [RowCache.upsertRow, hm, RowCache.findOne]
      · obtain ⟨e2, he2, hh2⟩ := ih
        refine ⟨e2, ?_, hh2⟩
        simp [RowCache.upsertRow, hm, RowCache.findOne, he2]

theorem splitAux_append (sep : Char) (l1 l2 acc : List Char)
    (h : ∀ c ∈ l1, c ≠ sep) :
    splitAux sep (l1 ++ sep :: l2) acc = (acc.reverse ++ l1) :: splitAux sep l2 [] := by
  induction l1 generalizing acc with
  | nil => simp [splitAux]
  | cons c cs ih =>
      have hc : c ≠ sep := h c (by simp)
      have hrest : ∀ d ∈ cs, d ≠ sep := fun d hd => h d (by simp [hd])
      simp only [List.cons_append, splitAux, if_neg hc, List.append_eq]
      rw [ih (c :: acc) hrest]
      simp

theorem splitAux_head (sep : Char) (l acc : List Char) :
    ∃ rest, splitAux sep l acc =
      (acc.reverse ++ l.takeWhile (fun c => c != sep)) :: rest := by
  induction l generalizing acc with
  | nil => exact ⟨[], by simp [splitAux]⟩
  | cons c cs ih =>
      by_cases hc : c = sep
      · subst hc
        refine ⟨splitAux c cs [], ?_⟩
        have hb : (c != c) = false := by simp
        simp [splitAux, List.takeWhile, hb]
      · obtain ⟨rest, hrest⟩ := ih (c :: acc)
        refine ⟨rest, ?_⟩
        have hb : (c != sep) = true := by simpa using hc
        simp only [splitAux, if_neg hc]
        rw [hrest]
        simp [List.takeWhile, hb]

/-! ## C8 — row-cache round trip -/

/-- C8: after `upsertRow` stores hash `h` for a `(feed, identifier)` pair,
`checkRow` for that pair with the same hash reports `changed = false`, with
any different hash `h' ≠ h` reports `changed = true`, and for a pair never
upserted `checkRow` reports `changed = true`. -/
theorem rowCache_upsert_checkRow_roundtrip (store : List RowCacheEntry) (f : Nat)
    (id t h h' : String) (pid : Option String) :
    (RowCache.checkRow (RowCache.upsertRow store f id t h pid) f id h).changed = false ∧
    (h' ≠ h →
      (RowCache.checkRow (RowCache.upsertRow store f id t h pid) f id h').changed = true) ∧
    (RowCache.findOne store f id = none →
      (RowCache.checkRow store f id h').changed = true) := by
  obtain ⟨e, he, hh⟩ := findOne_upsert_self store f id t h pid
  refine ⟨?_, ?_, ?_⟩
  · simp [RowCache.checkRow, he, hh]
  · intro hne
    have : ¬ e.rowHash = h' := by rw [hh]; exact fun x => hne x.symm
    simp [RowCache.checkRow, he, this]
  · intro hnone
    simp [RowCache.checkRow, hnone]

/-- Witness for C8 at a concrete store, pair and hashes. -/
theorem rowCache_upsert_checkRow_roundtrip_witness :
    (("h2" : String) ≠ "h1") ∧
    (RowCache.findOne [] 0 "W1" = none) ∧
    (RowCache.checkRow (RowCache.upsertRow [] 0 "W1" "sku" "h1" (some "5"))
      0 "W1" "h1").changed = false ∧
    (RowCache.checkRow (RowCache.upsertRow [] 0 "W1" "sku" "h1" (some "5"))
      0 "W1" "h2").changed = true ∧
    (RowCache.checkRow [] 0 "W1" "h2").changed = true := by
  refine ⟨by decide, by decide, ?_, ?_, ?_⟩
  · exact (rowCache_upsert_checkRow_roundtrip [] 0 "W1" "sku" "h1" "h2" (some "5")).1
  · exact (rowCache_upsert_checkRow_roundtrip [] 0 "W1" "sku" "h1" "h2" (some "5")).2.1
      (by decide)
  · exact (rowCache_upsert_checkRow_roundtrip [] 0 "W1" "sku" "h1" "h2" (some "5")).2.2
      (by decide)

/-! ## C10 — `CONSTANT:` literals truncate at the first colon -/

/-- C10: a `CONSTANT:`-prefixed source column resolves to
`split(':')[1]`, i.e. the part of the literal strictly before its first
colon; hence a literal containing a colon (such as a URL) is truncated,
not passed through whole. -/
theorem constant_source_truncates_at_colon (lit : String) (row : CsvRow) :
    resolveRawValue ("CONSTANT:" ++ lit) row =
      some ⟨lit.data.takeWhile (fun c => c != ':')⟩ ∧
    (':' ∈ lit.data → (⟨lit.data.takeWhile (fun c => c != ':')⟩ : String) ≠ lit) := by
  constructor
  · have hsw : jsStartsWith ("CONSTANT:" ++ lit) "CONSTANT:" = true := by
      have hdata : ("CONSTANT:" ++ lit).data = "CONSTANT:".data ++ lit.data :=
        String.data_append ..
      unfold jsStartsWith
      rw [hdata]
      exact listStartsWith_append _ _
    have hdata2 : ("CONSTANT:" ++ lit).data = "CONSTANT".data ++ ':' :: lit.data := by
      have hdata : ("CONSTANT:" ++ lit).data = "CONSTANT:".data ++ lit.data :=
        String.data_append ..
      rw [hdata]; rfl
    have hnc : ∀ c ∈ "CONSTANT".data, c ≠ ':' := by decide
    obtain ⟨rest, hrest⟩ := splitAux_head ':' lit.data []
    rw [resolveRawValue, if_pos hsw]
    unfold jsSplit
    rw [hdata2, splitAux_append ':' "CONSTANT".data lit.data [] hnc, hrest]
    simp
  · intro hmem heq
    have hdeq : lit.data.takeWhile (fun c => c != ':') = lit.data := by
      have := congrArg String.data heq
      simpa using this
    have : ':' ∈ lit.data.takeWhile (fun c => c != ':') := by rw [hdeq]; exact hmem
    have hpc := List.mem_takeWhile_imp this
    simp at hpc

/-- Witness for C10 at the URL literal `https://x`: the resolved constant
is `https`, not the full URL. -/
theorem constant_source_truncates_at_colon_witness :
    (':' ∈ "https://x".data) ∧
    resolveRawValue ("CONSTANT:" ++ "https://x") [] = some "https" ∧
    (("https" : String) ≠ "https://x") := by
  refine ⟨by decide, ?_, ?_⟩
  · exact (constant_source_truncates_at_colon "https://x" []).1.trans (by decide)
  · have h2 := (constant_source_truncates_at_colon "https://x" []).2 (by decide)
    have e : (⟨"https://x".data.takeWhile (fun c => c != ':')⟩ : String) = "https" := by
      decide
    exact e ▸ h2

/-! ## Helper lemmas for header uniqueness -/

theorem digitChar_ne_und (k : Nat) : digitChar k ≠ '_' := by
  unfold digitChar
  split_ifs <;> decide

theorem digitChar_val (k : Nat) (hk : k < 10) : (digitChar k).toNat - 48 = k := by
  interval_cases k <;> decide

theorem natDigitsGo_no_und (fuel : Nat) : ∀ n, ∀ c ∈ natDigitsGo fuel n, c ≠ '_' := by
  induction fuel with
  | zero => intro n c hc; simp [natDigitsGo] at hc
  | succ fuel ih =>
      intro n c hc
      unfold natDigitsGo at hc
      by_cases h10 : n < 10
      · rw [if_pos h10] at hc
        simp at hc
        subst hc
        exact digitChar_ne_und n
      · rw [if_neg h10] at hc
        rcases List.mem_append.mp hc with h | h
        · exact ih (n / 10) c h
        · simp at h
          subst h
          exact digitChar_ne_und (n % 10)

theorem natDigits_no_und (n : Nat) : ∀ c ∈ natDigits n, c ≠ '_' :=
  natDigitsGo_no_und (n + 1) n

theorem digitsToNat_append (l : List Char) (c : Char) :
    digitsToNat (l ++ [c]) = digitsToNat l * 10 + (c.toNat - 48) := by
  unfold digitsToNat
  rw [List.foldl_append]
  rfl

theorem digitsToNat_natDigitsGo (fuel : Nat) :
    ∀ n, n < fuel → digitsToNat (natDigitsGo fuel n) = n := by
  induction fuel with
  | zero => intro n hn; omega
  | succ fuel ih =>
      intro n hn
      unfold natDigitsGo
      by_cases h10 : n < 10
      · rw [if_pos h10]
        show digitsToNat [digitChar n] = n
        unfold digitsToNat
        simp [digitChar_val n h10]
      · rw [if_neg h10]
        rw [digitsToNat_append]
        rw [ih (n / 10) (by omega)]
        rw [digitChar_val (n % 10) (Nat.mod_lt n (by omega))]
        omega

theorem digitsToNat_natDigits (n : Nat) : digitsToNat (natDigits n) = n :=
  digitsToNat_natDigitsGo (n + 1) n (by omega)

theorem natDigits_inj (m n : Nat) (h : natDigits m = natDigits n) : m = n := by
  have hm := digitsToNat_natDigits m
  have hn := digitsToNat_natDigits n
  rw [h] at hm
  omega

theorem split_at_last_sep (x1 : List Char) :
    ∀ (x2 r1 r2 : List Char), '_' ∉ x1 → '_' ∉ x2 →
      x1 ++ '_' :: r1 = x2 ++ '_' :: r2 → x1 = x2 ∧ r1 = r2 := by
  induction x1 with
  | nil =>
      intro x2 r1 r2 _ h2 he
      cases x2 with
      | nil => simpa using he
      | cons y ys =>
          simp only [List.nil_append, List.cons_append, List.cons.injEq] at he
          exfalso
          apply h2
          rw [he.1]
          exact List.mem_cons_self y ys
  | cons x xs ih =>
      intro x2 r1 r2 h1 h2 he
      cases x2 with
      | nil =>
          simp only [List.nil_append, List.cons_append, List.cons.injEq] at he
          exfalso
          apply h1
          rw [← he.1]
          exact List.mem_cons_self x xs
      | cons y ys =>
          simp only [List.cons_append, List.cons.injEq] at he
          have hx1 : '_' ∉ xs := fun hm => h1 (List.mem_cons_of_mem x hm)
          have hx2 : '_' ∉ ys := fun hm => h2 (List.mem_cons_of_mem y hm)
          obtain ⟨hxy, hr⟩ := ih ys r1 r2 hx1 hx2 he.2
          exact ⟨by rw [he.1, hxy], hr⟩

theorem suffix_inj (b c : String) (i j : Nat)
    (he : b ++ "_" ++ jsNumToString i = c ++ "_" ++ jsNumToString j) :
    b = c ∧ i = j := by
  have hdata : b.data ++ '_' :: natDigits i = c.data ++ '_' :: natDigits j := by
    have h1 : (b ++ "_" ++ jsNumToString i).data = b.data ++ '_' :: natDigits i := by
      rw [String.data_append, String.data_append, List.append_assoc]
      rfl
    have h2 : (c ++ "_" ++ jsNumToString j).data = c.data ++ '_' :: natDigits j := by
      rw [String.data_append, String.data_append, List.append_assoc]
      rfl
    rw [← h1, ← h2, he]
  have hrev : (natDigits i).reverse ++ '_' :: b.data.reverse =
      (natDigits j).reverse ++ '_' :: c.data.reverse := by
    have := congrArg List.reverse hdata
    simpa [List.reverse_append] using this
  have h1 : '_' ∉ (natDigits i).reverse := by
    intro hm
    exact natDigits_no_und i '_' (List.mem_reverse.mp hm) rfl
  have h2 : '_' ∉ (natDigits j).reverse := by
    intro hm
    exact natDigits_no_und j '_' (List.mem_reverse.mp hm) rfl
  obtain ⟨hd, hb⟩ := split_at_last_sep ((natDigits i).reverse)
    ((natDigits j).reverse) b.data.reverse c.data.reverse h1 h2 hrev
  constructor
  · apply String.ext
    have := congrArg List.reverse hb
    simpa using this
  · apply natDigits_inj
    have := congrArg List.reverse hd
    simpa using this

theorem countsFind_none (counts : List (String × Nat)) (b : String)
    (h : countsFind counts b = none) : ∀ p ∈ counts, p.1 ≠ b := by
  induction counts with
  | nil => intro p hp; simp at hp
  | cons q rest ih =>
      intro p hp
      unfold countsFind at h
      by_cases hq : q.1 = b
      · rw [if_pos hq] at h; exact absurd h (by simp)
      · rw [if_neg hq] at h
        rcases List.mem_cons.mp hp with rfl | hp2
        · exact hq
        · exact ih h p hp2

theorem countsFind_some (counts : List (String × Nat)) (b : String) (n : Nat)
    (h : countsFind counts b = some n) : ∃ p ∈ counts, p.1 = b ∧ p.2 = n := by
  induction counts with
  | nil => simp [countsFind] at h
  | cons q rest ih =>
      unfold countsFind at h
      by_cases hq : q.1 = b
      · rw [if_pos hq] at h
        exact ⟨q, by simp, hq, Option.some.inj h⟩
      · rw [if_neg hq] at h
        obtain ⟨p, hp, hp1, hp2⟩ := ih h
        exact ⟨p, List.mem_cons_of_mem q hp, hp1, hp2⟩

theorem countsSet_mem (counts : List (String × Nat)) (b : String) (v : Nat)
    (hnd : (counts.map Prod.fst).Nodup) :
    ∀ p ∈ countsSet counts b v, p = (b, v) ∨ (p ∈ counts ∧ p.1 ≠ b) := by
  induction counts with
  | nil => intro p hp; simp [countsSet] at hp; exact Or.inl hp
  | cons q rest ih =>
      intro p hp
      unfold countsSet at hp
      have hnd2 : (rest.map Prod.fst).Nodup := (List.nodup_cons.mp (by simpa using hnd)).2
      have hq1 : q.1 ∉ rest.map Prod.fst := (List.nodup_cons.mp (by simpa using hnd)).1
      by_cases hq : q.1 = b
      · rw [if_pos hq] at hp
        rcases List.mem_cons.mp hp with rfl | hp2
        · exact Or.inl rfl
        · refine Or.inr ⟨List.mem_cons_of_mem q hp2, ?_⟩
          intro hpb
          exact hq1 (by
            rw [hq, ← hpb]
            exact List.mem_map_of_mem Prod.fst hp2)
      · rw [if_neg hq] at hp
        rcases List.mem_cons.mp hp with rfl | hp2
        · exact Or.inr ⟨List.mem_cons_self _ _, hq⟩
        · rcases ih hnd2 p hp2 with h | ⟨hmem, hne⟩
          · exact Or.inl h
          · exact Or.inr ⟨List.mem_cons_of_mem q hmem, hne⟩

theorem countsSet_mem_new (counts : List (String × Nat)) (b : String) (v : Nat) :
    (b, v) ∈ countsSet counts b v := by
  induction counts with
  | nil => simp [countsSet]
  | cons q rest ih =>
      unfold countsSet
      by_cases hq : q.1 = b
      · rw [if_pos hq]; exact List.mem_cons_self _ _
      · rw [if_neg hq]; exact List.mem_cons_of_mem q ih

theorem countsSet_mem_keep (counts : List (String × Nat)) (b : String) (v : Nat)
    (p : String × Nat) (hp : p ∈ counts) (hne : p.1 ≠ b) :
    p ∈ countsSet counts b v := by
  induction counts with
  | nil => simp at hp
  | cons q rest ih =>
      unfold countsSet
      rcases List.mem_cons.mp hp with rfl | hp2
      · rw [if_neg hne]; exact List.mem_cons_self _ _
      · by_cases hq : q.1 = b
        · rw [if_pos hq]; exact List.mem_cons_of_mem _ hp2
        · rw [if_neg hq]; exact List.mem_cons_of_mem q (ih hp2)

theorem countsSet_keys_sub (counts : List (String × Nat)) (b : String) (v : Nat) :
    ∀ x ∈ (countsSet counts b v).map Prod.fst, x = b ∨ x ∈ counts.map Prod.fst := by
  induction counts with
  | nil => intro x hx; simp [countsSet] at hx; exact Or.inl hx
  | cons q rest ih =>
      intro x hx
      unfold countsSet at hx
      by_cases hq : q.1 = b
      · rw [if_pos hq] at hx
        rcases List.mem_map.mp hx with ⟨p, hp, rfl⟩
        rcases List.mem_cons.mp hp with rfl | hp2
        · exact Or.inl rfl
        · exact Or.inr (List.mem_cons_of_mem q.1 (List.mem_map_of_mem Prod.fst hp2))
      · rw [if_neg hq] at hx
        rcases List.mem_map.mp hx with ⟨p, hp, rfl⟩
        rcases List.mem_cons.mp hp with rfl | hp2
        · exact Or.inr (List.mem_map_of_mem Prod.fst (List.mem_cons_self _ _))
        · rcases ih (p.1) (List.mem_map_of_mem Prod.fst hp2) with h | h
          · exact Or.inl h
          · exact Or.inr (List.mem_cons_of_mem q.1 h)

theorem countsSet_keys_nodup (counts : List (String × Nat)) (b : String) (v : Nat)
    (hnd : (counts.map Prod.fst).Nodup) :
    ((countsSet counts b v).map Prod.fst).Nodup := by
  induction counts with
  | nil => simp [countsSet]
  | cons q rest ih =>
      have hnd2 : (rest.map Prod.fst).Nodup := (List.nodup_cons.mp (by simpa using hnd)).2
      have hq1 : q.1 ∉ rest.map Prod.fst := (List.nodup_cons.mp (by simpa using hnd)).1
      unfold countsSet
      by_cases hq : q.1 = b
      · rw [if_pos hq]
        simp only [List.map_cons]
        exact List.nodup_cons.mpr ⟨by rw [← hq]; simpa using hq1, hnd2⟩
      · rw [if_neg hq]
        simp only [List.map_cons]
        refine List.nodup_cons.mpr ⟨?_, ih hnd2⟩
        intro hmem
        rcases countsSet_keys_sub rest b v q.1 hmem with h | h
        · exact hq h
        · exact hq1 h

theorem uniquifyGo_length (hs : List String) :
    ∀ counts, (uniquifyGo hs counts).length = hs.length := by
  induction hs with
  | nil => intro counts; rfl
  | cons h rest ih =>
      intro counts
      unfold uniquifyGo
      rcases hfind : countsFind counts (headerBase h) with _ | n <;> simp [hfind, ih]

theorem nodup_keys_unique (counts : List (String × Nat))
    (hnd : (counts.map Prod.fst).Nodup) (p q : String × Nat)
    (hp : p ∈ counts) (hq : q ∈ counts) (h : p.1 = q.1) : p = q := by
  induction counts with
  | nil => simp at hp
  | cons r rest ih =>
      have hnd2 : (rest.map Prod.fst).Nodup := (List.nodup_cons.mp (by simpa using hnd)).2
      have hr1 : r.1 ∉ rest.map Prod.fst := (List.nodup_cons.mp (by simpa using hnd)).1
      rcases List.mem_cons.mp hp with rfl | hp2
      · rcases List.mem_cons.mp hq with rfl | hq2
        · rfl
        · exact absurd (h ▸ List.mem_map_of_mem Prod.fst hq2) hr1
      · rcases List.mem_cons.mp hq with rfl | hq2
        · exfalso
          apply hr1
          rw [← h]
          exact List.mem_map_of_mem Prod.fst hp2
        · exact ih hnd2 hp2 hq2

theorem uniquifyGo_invariant (bases : List String) (N : Nat) (hsf : suffixFree bases N)
    (hs : List String) :
    ∀ (counts : List (String × Nat)),
      (∀ x ∈ hs, headerBase x ∈ bases) →
      (∀ p ∈ counts, p.1 ∈ bases) →
      (∀ p ∈ counts, p.2 + hs.length ≤ N) →
      hs.length ≤ N →
      ((counts.map Prod.fst).Nodup) →
      (uniquifyGo hs counts).Nodup ∧
        (∀ s ∈ uniquifyGo hs counts, ¬ emittedName counts s) := by
  induction hs with
  | nil =>
      intro counts _ _ _ _ _
      constructor
      · simp [uniquifyGo]
      · intro s hs2; simp [uniquifyGo] at hs2
  | cons hd rest ih =>
      intro counts hmem hkeys hbound hlen hnd
      have hb : headerBase hd ∈ bases := hmem hd (List.mem_cons_self _ _)
      have hmem2 : ∀ x ∈ rest, headerBase x ∈ bases :=
        fun x hx => hmem x (List.mem_cons_of_mem hd hx)
      have hNpos : rest.length + 1 ≤ N := by simpa using hlen
      unfold uniquifyGo
      rcases hfind : countsFind counts (headerBase hd) with _ | n
      · -- first occurrence of this base
        simp only [hfind]
        have hnone := countsFind_none counts (headerBase hd) hfind
        have hnd' := countsSet_keys_nodup counts (headerBase hd) 0 hnd
        have hkeys' : ∀ p ∈ countsSet counts (headerBase hd) 0, p.1 ∈ bases := by
          intro p hp
          rcases countsSet_mem counts (headerBase hd) 0 hnd p hp with rfl | ⟨hpm, _⟩
          · exact hb
          · exact hkeys p hpm
        have hbound' : ∀ p ∈ countsSet counts (headerBase hd) 0, p.2 + rest.length ≤ N := by
          intro p hp
          rcases countsSet_mem counts (headerBase hd) 0 hnd p hp with rfl | ⟨hpm, _⟩
          · simp; omega
          · have := hbound p hpm; simp at this; omega
        obtain ⟨tailNodup, tailFresh⟩ := ih (countsSet counts (headerBase hd) 0)
          hmem2 hkeys' hbound' (by omega) hnd'
        have hHeadEmitted : emittedName (countsSet counts (headerBase hd) 0) (headerBase hd) :=
          ⟨(headerBase hd, 0), countsSet_mem_new counts (headerBase hd) 0, Or.inl rfl⟩
        have hHeadNotOld : ¬ emittedName counts (headerBase hd) := by
          rintro ⟨p, hp, hcase | ⟨k, hk1, hk2, hkeq⟩⟩
          · exact hnone p hp hcase.symm
          · have hkN : k ≤ N := by have := hbound p hp; simp at this; omega
            exact hsf (headerBase hd) hb p.1 (hkeys p hp) k
              (List.mem_range.mpr (by omega)) hk1 hkeq
        have hMono : ∀ s, emittedName counts s →
            emittedName (countsSet counts (headerBase hd) 0) s := by
          rintro s ⟨p, hp, hcase⟩
          have hpne : p.1 ≠ headerBase hd := hnone p hp
          exact ⟨p, countsSet_mem_keep counts (headerBase hd) 0 p hp hpne, hcase⟩
        constructor
        · refine List.nodup_cons.mpr ⟨?_, tailNodup⟩
          intro hmem3
          exact tailFresh (headerBase hd) hmem3 hHeadEmitted
        · intro s hsmem
          rcases List.mem_cons.mp hsmem with rfl | htail
          · exact hHeadNotOld
          · intro hem
            exact tailFresh s htail (hMono s hem)
      · -- repeat occurrence: emit the suffixed name
        simp only [hfind]
        obtain ⟨q, hq, hq1, hq2⟩ := countsFind_some counts (headerBase hd) n hfind
        have hnd' := countsSet_keys_nodup counts (headerBase hd) (n + 1) hnd
        have hkeys' : ∀ p ∈ countsSet counts (headerBase hd) (n + 1), p.1 ∈ bases := by
          intro p hp
          rcases countsSet_mem counts (headerBase hd) (n + 1) hnd p hp with rfl | ⟨hpm, _⟩
          · exact hb
          · exact hkeys p hpm
        have hqbound : q.2 + (rest.length + 1) ≤ N := by
          have := hbound q hq; simpa using this
        have hbound' : ∀ p ∈ countsSet counts (headerBase hd) (n + 1),
            p.2 + rest.length ≤ N := by
          intro p hp
          rcases countsSet_mem counts (headerBase hd) (n + 1) hnd p hp with rfl | ⟨hpm, _⟩
          · simp; omega
          · have := hbound p hpm; simp at this; omega
        obtain ⟨tailNodup, tailFresh⟩ := ih (countsSet counts (headerBase hd) (n + 1))
          hmem2 hkeys' hbound' (by omega) hnd'
        have hn1N : n + 1 ≤ N := by omega
        have hHeadEmitted : emittedName (countsSet counts (headerBase hd) (n + 1))
            (headerBase hd ++ "_" ++ jsNumToString (n + 1)) :=
          ⟨(headerBase hd, n + 1), countsSet_mem_new counts (headerBase hd) (n + 1),
            Or.inr ⟨n + 1, by omega, by simp, rfl⟩⟩
        have hHeadNotOld : ¬ emittedName counts
            (headerBase hd ++ "_" ++ jsNumToString (n + 1)) := by
          rintro ⟨p, hp, hcase | ⟨k, hk1, hk2, hkeq⟩⟩
          · exact hsf p.1 (hkeys p hp) (headerBase hd) hb (n + 1)
              (List.mem_range.mpr (by omega)) (by omega) hcase.symm
          · obtain ⟨hbc, hkk⟩ := suffix_inj (headerBase hd) p.1 (n + 1) k hkeq
            have : p = q := nodup_keys_unique counts hnd p q hp hq (by rw [← hbc, hq1])
            subst this
            omega
        have hMono : ∀ s, emittedName counts s →
            emittedName (countsSet counts (headerBase hd) (n + 1)) s := by
          rintro s ⟨p, hp, hcase⟩
          by_cases hpb : p.1 = headerBase hd
          · have hpq : p = q := nodup_keys_unique counts hnd p q hp hq (by rw [hpb, hq1])
            subst hpq
            refine ⟨(headerBase hd, n + 1),
              countsSet_mem_new counts (headerBase hd) (n + 1), ?_⟩
            rcases hcase with hcase | ⟨k, hk1, hk2, hkeq⟩
            · exact Or.inl (by rw [hcase, hpb])
            · exact Or.inr ⟨k, hk1, by omega, by rw [hkeq, hpb]⟩
          · exact ⟨p, countsSet_mem_keep counts (headerBase hd) (n + 1) p hp hpb, hcase⟩
        constructor
        · refine List.nodup_cons.mpr ⟨?_, tailNodup⟩
          intro hmem3
          exact tailFresh _ hmem3 hHeadEmitted
        · intro s hsmem
          rcases List.mem_cons.mp hsmem with rfl | htail
          · exact hHeadNotOld
          · intro hem
            exact tailFresh s htail (hMono s hem)

/-! ## C6 — header normalization and de-duplication -/

/-- Counterexample to C6: when the raw header row already contains a name
of the suffixed form (`a, a, a_1`), de-duplication produces the list
`a, a_1, a_1`, which contains two equal entries. -/
theorem headers_unique_counterexample :
    parseHeaders ["a", "a", "a_1"] = ["a", "a_1", "a_1"] ∧
    ¬ (parseHeaders ["a", "a", "a_1"]).Nodup := by
  constructor
  · decide
  · decide

/-- C6 (amended): the returned headers list has one entry per source
column, and no two of its entries are equal provided no normalized header
(empty headers replaced by `unnamed_column`) is itself of the suffixed
form `c_k` of a normalized header, for `1 ≤ k ≤` the number of columns.
(The unamended claim fails on raw headers `a, a, a_1`.) -/
theorem headers_unique_amended (raw : List String)
    (hsf : suffixFree ((raw.map normalizeHeader).map headerBase) raw.length) :
    (parseHeaders raw).length = raw.length ∧ (parseHeaders raw).Nodup := by
  constructor
  · unfold parseHeaders uniquifyHeaders
    rw [uniquifyGo_length]
    simp
  · unfold parseHeaders uniquifyHeaders
    refine (uniquifyGo_invariant ((raw.map normalizeHeader).map headerBase) raw.length hsf
      (raw.map normalizeHeader) [] ?_ ?_ ?_ ?_ ?_).1
    · intro x hx
      exact List.mem_map_of_mem headerBase hx
    · intro p hp; simp at hp
    · intro p hp; simp at hp
    · simp
    · simp

/-- Witness for C6 (amended) on the raw header row
`Name, Name, Price`: three pairwise distinct headers
`name, name_1, price`. -/
theorem headers_unique_amended_witness :
    suffixFree (((["Name", "Name", "Price"]).map normalizeHeader).map headerBase) 3 ∧
    parseHeaders ["Name", "Name", "Price"] = ["name", "name_1", "price"] ∧
    (parseHeaders ["Name", "Name", "Price"]).length = 3 ∧
    (parseHeaders ["Name", "Name", "Price"]).Nodup := by
  refine ⟨by decide, by decide, ?_, ?_⟩
  · exact (headers_unique_amended ["Name", "Name", "Price"] (by decide)).1
  · exact (headers_unique_amended ["Name", "Name", "Price"] (by decide)).2

/-! ## C7 — diffing a record against itself -/

theorem valuesEqual_self (v : JsValue) (f : String) : valuesEqual v v f = true := by
  unfold valuesEqual
  by_cases h : isNullOrEmpty v
  · simp [h]
  · simp [h, arraysEqual]

theorem compareProductFields_self (p : List (String × JsValue)) :
    compareProductFields p p = [] := by
  unfold compareProductFields
  generalize (p.map Prod.fst) = keys
  induction keys using List.reverseRecOn with
  | nil => rfl
  | append_singleton l k ih =>
      rw [List.foldl_append, ih]
      simp [valuesEqual_self]

theorem metafield_find_self (metas : List Metafield)
    (hnd : (metas.map (fun m => (m.ns, m.key))).Nodup) :
    ∀ n ∈ metas, metas.find? (fun m => m.ns == n.ns && m.key == n.key) = some n := by
  induction metas with
  | nil => intro n hn; simp at hn
  | cons q rest ih =>
      have hnd' := hnd
      rw [List.map_cons] at hnd'
      have hq1 := (List.nodup_cons.mp hnd').1
      have hnd2 := (List.nodup_cons.mp hnd').2
      intro n hn
      rcases List.mem_cons.mp hn with rfl | hn2
      · simp [List.find?]
      · have hfq : (q.ns == n.ns && q.key == n.key) = false := by
          rw [Bool.and_eq_false_iff]
          by_cases hns : q.ns = n.ns
          · refine Or.inr ?_
            rw [beq_eq_false_iff_ne]
            intro hkey
            apply hq1
            have : (q.ns, q.key) = (n.ns, n.key) := by rw [hns, hkey]
            rw [this]
            exact List.mem_map_of_mem _ hn2
          · exact Or.inl (beq_eq_false_iff_ne.mpr hns)
        rw [List.find?_cons]
        simp only [hfq]
        exact ih hnd2 n hn2

theorem compareMetafields_self (metas : List Metafield)
    (hnd : (metas.map (fun m => (m.ns, m.key))).Nodup) :
    compareMetafields metas metas = [] := by
  unfold compareMetafields
  have hsub : ∀ (sub : List Metafield), (∀ n ∈ sub, n ∈ metas) →
      ∀ (acc : List Change), acc = [] →
        sub.foldl (fun changes newMeta =>
          match metas.find? (fun m => m.ns == newMeta.ns && m.key == newMeta.key) with
          | none =>
              changes ++ [⟨newMeta.ns ++ "." ++ newMeta.key, none,
                some (formatValue (optToJs newMeta.value)), "metafield", some newMeta⟩]
          | some existing =>
              if valuesEqual (optToJs existing.value) (optToJs newMeta.value) "metafield" then
                changes
              else
                changes ++ [⟨newMeta.ns ++ "." ++ newMeta.key,
                  some (formatValue (optToJs existing.value)),
                  some (formatValue (optToJs newMeta.value)), "metafield", some newMeta⟩]) acc
          = [] := by
    intro sub
    induction sub with
    | nil => intro _ acc hacc; simpa using hacc
    | cons n rest ih =>
        intro hmem acc hacc
        rw [List.foldl_cons]
        rw [metafield_find_self metas hnd n (hmem n (List.mem_cons_self _ _))]
        simp only [valuesEqual_self, if_true]
        exact ih (fun x hx => hmem x (List.mem_cons_of_mem n hx)) acc hacc
  exact hsub metas (fun n hn => hn) [] rfl

/-- Counterexample to C7: a record whose custom-attribute list holds two
entries with the same (namespace, key) but different values compares
unequal to itself — the lookup finds the first entry when diffing the
second. -/
theorem compareProduct_self_counterexample :
    compareProduct
      ⟨[], [⟨"a", "k", "t", some "1"⟩, ⟨"a", "k", "t", some "2"⟩]⟩
      ⟨[], [⟨"a", "k", "t", some "1"⟩, ⟨"a", "k", "t", some "2"⟩], ⟨"sku", none⟩⟩
      [] ≠ [] := by
  decide

/-- C7 (amended): comparing a record of any shape against itself yields an
empty change list, provided its custom-attribute list has no two entries
sharing the same (namespace, key) pair; with duplicated pairs a spurious
change can be reported. -/
theorem compareProduct_self_amended (fields : List (String × JsValue))
    (metas : List Metafield) (ident : Identifier) (mappings : List FieldMapping)
    (hnd : (metas.map (fun m => (m.ns, m.key))).Nodup) :
    compareProduct ⟨fields, metas⟩ ⟨fields, metas, ident⟩ mappings = [] := by
  unfold compareProduct
  rw [compareProductFields_self, compareMetafields_self metas hnd]
  rfl

/-- Witness for C7 (amended) on a record with nested arrays, nested
objects, null and empty values, and two distinct custom attributes. -/
theorem compareProduct_self_amended_witness :
    ((([⟨"ns1", "k1", "t", some "v"⟩, ⟨"ns1", "k2", "t", none⟩] : List Metafield).map
        (fun m => (m.ns, m.key))).Nodup) ∧
    compareProduct
      ⟨[("tags", JsValue.vArr [JsValue.vStr "a", JsValue.vStr "b"]),
        ("meta", JsValue.vObj [("x", JsValue.vArr [JsValue.vNull])]),
        ("empty", JsValue.vNull), ("blank", JsValue.vStr "")],
       [⟨"ns1", "k1", "t", some "v"⟩, ⟨"ns1", "k2", "t", none⟩]⟩
      ⟨[("tags", JsValue.vArr [JsValue.vStr "a", JsValue.vStr "b"]),
        ("meta", JsValue.vObj [("x", JsValue.vArr [JsValue.vNull])]),
        ("empty", JsValue.vNull), ("blank", JsValue.vStr "")],
       [⟨"ns1", "k1", "t", some "v"⟩, ⟨"ns1", "k2", "t", none⟩], ⟨"sku", some "A"⟩⟩
      [] = [] := by
  refine ⟨by decide, ?_⟩
  exact compareProduct_self_amended _ _ _ _ (by decide)

/-! ## C1 — value-mapping rules never reach the engine -/

/-- C1 (code bug): `MappingEngine.transformRow` declares only three
parameters, so the `feed.valueMappings` argument passed by the worker is
silently discarded — the transformed record is independent of the
value-mapping rules, and at a row matching a configured rule
(`color = red`, rule target `title := blue`) the target field keeps the
value computed by the field mappings (`red`), never the rule's target
value. -/
theorem transformRow_ignores_valueMappings :
    (∀ (host : JsHost) (row : CsvRow) (mappings : List FieldMapping)
        (mc : MatchingConfig) (vm vm' : List ValueMapping),
        transformRowWorkerCall host row mappings mc vm =
          transformRowWorkerCall host row mappings mc vm') ∧
    (∀ (vm : List ValueMapping),
        objGet (transformRowWorkerCall trivialHost [("color", some "red")]
          [⟨"color", "title", "product", "", "", "", none⟩] ⟨"color", "sku"⟩ vm).product
          "title" = some (JsValue.vStr "red")) := by
  constructor
  · intro host row mappings mc vm vm'
    rfl
  · intro vm
    rfl

/-! ## C2 — `interrupted` is not an admitted Job status -/

/-- C2 (code bug): the Job schema's status enum does not contain
`interrupted`, so the save performed by the stale-job sweep and by the
queue timeout listener raises a `ValidationError` for every job with
nonzero progress — the `interrupted` transition is never persisted and no
resume dispatch is enqueued; only the zero-progress branch (mark `failed`)
succeeds. -/
theorem interrupted_status_rejected :
    (jobStatusEnum.contains "interrupted" = false) ∧
    (∀ (job : JobDoc) (jobId : Nat) (feedActive : Bool), job.progress.current > 0 →
        staleJobStep job jobId feedActive = Except.error
          "ValidationError: `interrupted` is not a valid enum value for path `status`.") ∧
    (∀ (job : JobDoc) (jobId : Nat), job.progress.current > 0 →
        timeoutFailedStep job jobId = Except.error
          "ValidationError: `interrupted` is not a valid enum value for path `status`.") ∧
    (∀ (job : JobDoc) (jobId : Nat) (feedActive : Bool), job.progress.current = 0 →
        staleJobStep job jobId feedActive = Except.ok
          ({ job with
              status := "failed"
              error := some ⟨"Job stalled with no progress and was marked as failed during cleanup",
                "STALE_JOB_CLEANUP"⟩ }, none) ∧
        "failed" ∈ jobStatusEnum) := by
  refine ⟨by decide, ?_, ?_, ?_⟩
  · intro job jobId feedActive h
    unfold staleJobStep
    rw [if_pos h]
    rfl
  · intro job jobId h
    unfold timeoutFailedStep
    rw [if_pos h]
    rfl
  · intro job jobId feedActive h
    refine ⟨?_, by decide⟩
    unfold staleJobStep
    rw [if_neg (by omega)]
    rfl

/-- Witness for C2 at a concrete stale job with progress 5 (and one with
progress 0). -/
theorem interrupted_status_rejected_witness :
    ((⟨"processing", ⟨5, 10, 50⟩, zeroResults, none⟩ : JobDoc).progress.current > 0) ∧
    staleJobStep ⟨"processing", ⟨5, 10, 50⟩, zeroResults, none⟩ 7 true = Except.error
      "ValidationError: `interrupted` is not a valid enum value for path `status`." ∧
    timeoutFailedStep ⟨"processing", ⟨5, 10, 50⟩, zeroResults, none⟩ 7 = Except.error
      "ValidationError: `interrupted` is not a valid enum value for path `status`." ∧
    staleJobStep ⟨"processing", ⟨0, 10, 0⟩, zeroResults, none⟩ 7 true = Except.ok
      ({ (⟨"processing", ⟨0, 10, 0⟩, zeroResults, none⟩ : JobDoc) with
          status := "failed"
          error := some ⟨"Job stalled with no progress and was marked as failed during cleanup",
            "STALE_JOB_CLEANUP"⟩ }, none) := by
  refine ⟨by decide, ?_, ?_, ?_⟩
  · exact (interrupted_status_rejected).2.1 _ 7 true (by decide)
  · exact (interrupted_status_rejected).2.2.1 _ 7 (by decide)
  · exact ((interrupted_status_rejected).2.2.2 _ 7 true (by decide)).1

/-! ## C5 — temp-file cleanup misses the unchanged-file early return -/

/-- C5 (code bug): every post-download exit of `process` deletes the local
temp file except one — the unchanged-file early return, which leaves the
downloaded file in place. -/
theorem temp_file_cleanup :
    (∀ e : ProcessPathEnv, (processPaths e).downloaded = true →
        (processPaths e).outcome ≠ "skipped" →
        (processPaths e).tempFileDeleted = true) ∧
    processPaths ⟨true, true, true, true, true, true, true, true, true⟩ =
      ⟨true, false, "skipped"⟩ := by
  constructor
  · intro e h1 h2
    unfold processPaths at h1 h2 ⊢
    split_ifs at h1 h2 ⊢ <;> simp_all
  · rfl

/-- Witness for C5 on a run whose checksum differs: the success path
deletes the file. -/
theorem temp_file_cleanup_witness :
    (processPaths ⟨true, true, true, true, false, true, true, true, true⟩).downloaded = true ∧
    (processPaths ⟨true, true, true, true, false, true, true, true, true⟩).outcome ≠ "skipped" ∧
    (processPaths ⟨true, true, true, true, false, true, true, true, true⟩).tempFileDeleted
      = true := by
  refine ⟨by decide, by decide, ?_⟩
  exact temp_file_cleanup.1 ⟨true, true, true, true, false, true, true, true, true⟩
    (by decide) (by decide)

/-! ## C4 — cancellation after row 3 of 10 -/

/-- C4 (code bug): with a cancellation issued after row 3 of 10, the loop
does halt (after row 4) and `results.processed = 3`, but row 4 is still
given a row log entry — the cancellation poll runs after the row's sync
and logging — and the job's final persisted status is `completed`, not
`cancelled`, because `process` unconditionally calls `markCompleted` on
the value `processRows` returned.  Rows 5–10 are never logged. -/
theorem cancellation_scenario :
    (processJobRows cfgBasic envCancelAfter3 false rowsTen none catalogEmpty []).2 = true ∧
    (processJobRows cfgBasic envCancelAfter3 false rowsTen none catalogEmpty
      []).1.results.processed = 3 ∧
    ((processJobRows cfgBasic envCancelAfter3 false rowsTen none catalogEmpty
      []).1.log.filter (fun e => 5 ≤ e.rowNumber)).length = 0 ∧
    ((processJobRows cfgBasic envCancelAfter3 false rowsTen none catalogEmpty
      []).1.log.any (fun e => e.rowNumber = 4)) = true ∧
    (processJobRows cfgBasic envCancelAfter3 false rowsTen none catalogEmpty
      []).1.doc.status = "completed" ∧
    ("completed" : String) ≠ "cancelled" := by
  refine ⟨by decide, by decide, by decide, by decide, by decide, by decide⟩

/-! ## C3 — resume does not reproduce the one-pass aggregates -/

/-- C3 (code bug): a two-row feed run to completion reports
`processed = 2, created = 2`; the same feed interrupted after row 1
(timeout path: `lastProcessedRow := progress.current`, counters restored
from the periodically persisted snapshot, which at row 1 still holds the
schema defaults) and resumed reports `processed = 1, created = 1` — the
final aggregates differ. -/
theorem resume_loses_counts :
    (onePassRun cfgBasic envQuiet rowsTwo catalogEmpty []).1.doc.resultsSnap =
      ⟨2, 2, 2, 0, 0, 0⟩ ∧
    (resumeRun cfgBasic envQuiet rowsTwo 1 catalogEmpty []).1.doc.resultsSnap =
      ⟨2, 1, 1, 0, 0, 0⟩ ∧
    (resumeRun cfgBasic envQuiet rowsTwo 1 catalogEmpty []).1.doc.resultsSnap ≠
      (onePassRun cfgBasic envQuiet rowsTwo catalogEmpty []).1.doc.resultsSnap := by
  refine ⟨by decide, by decide, by decide⟩

/-! ## C9 — row-level errors are isolated

The lemmas below characterize the row loop one iteration at a time
(`processRowsGo_cons`), splice runs over list append, and show that two
runs from states sharing the remote catalog and the row cache advance all
aggregate counters by the same amounts (`go_parallel`). -/

theorem processRowsGo_cons (cfg : FeedCfg) (env : WorkerEnv) (isPreview : Bool)
    (totalRows : Nat) (row : CsvRow) (rest : List CsvRow) (i : Nat) (st : LoopState)
    (hnc : env.cancelAfterRow (i + 1) = false) :
    processRowsGo cfg env isPreview 0 totalRows (row :: rest) i st =
      processRowsGo cfg env isPreview 0 totalRows rest (i + 1)
        (rowIter cfg env isPreview i totalRows row st) := by
  rw [processRowsGo.eq_2]
  rw [if_neg (Nat.not_lt_zero i)]
  unfold rowIter
  simp only [hnc, Bool.false_eq_true, if_false]
  by_cases h1 : applyFilters env.host row cfg.filters = false
  · simp only [if_pos h1]
  · simp only [if_neg h1]
    by_cases h2 : jsTruthy (transformRowWorkerCall env.host row cfg.mappings cfg.matching
        cfg.valueMappings).identifier.value = false
    · simp only [if_pos h2]
    · simp only [if_neg h2]
      split_ifs <;> rfl

set_option maxHeartbeats 2000000 in
theorem rowIter_parallel (cfg : FeedCfg) (env : WorkerEnv) (isPreview : Bool)
    (i1 i2 tot1 tot2 : Nat) (row : CsvRow) (st1 st2 : LoopState)
    (hcat : st1.catalog = st2.catalog) (hcache : st1.rowCache = st2.rowCache) :
    (rowIter cfg env isPreview i1 tot1 row st1).catalog =
      (rowIter cfg env isPreview i2 tot2 row st2).catalog ∧
    (rowIter cfg env isPreview i1 tot1 row st1).rowCache =
      (rowIter cfg env isPreview i2 tot2 row st2).rowCache ∧
    (rowIter cfg env isPreview i1 tot1 row st1).results.processed + st2.results.processed =
      (rowIter cfg env isPreview i2 tot2 row st2).results.processed + st1.results.processed ∧
    (rowIter cfg env isPreview i1 tot1 row st1).results.created + st2.results.created =
      (rowIter cfg env isPreview i2 tot2 row st2).results.created + st1.results.created ∧
    (rowIter cfg env isPreview i1 tot1 row st1).results.updated + st2.results.updated =
      (rowIter cfg env isPreview i2 tot2 row st2).results.updated + st1.results.updated ∧
    (rowIter cfg env isPreview i1 tot1 row st1).results.skipped + st2.results.skipped =
      (rowIter cfg env isPreview i2 tot2 row st2).results.skipped + st1.results.skipped ∧
    (rowIter cfg env isPreview i1 tot1 row st1).results.failed + st2.results.failed =
      (rowIter cfg env isPreview i2 tot2 row st2).results.failed + st1.results.failed := by
  obtain ⟨res1, u1, cat1, cache1, log1, doc1⟩ := st1
  obtain ⟨res2, u2, cat2, cache2, log2, doc2⟩ := st2
  simp only at hcat hcache
  subst hcat
  subst hcache
  unfold rowIter
  set pd := transformRowWorkerCall env.host row cfg.mappings cfg.matching cfg.valueMappings
    with hpd
  set gh := env.generateHash row with hgh
  clear_value pd gh
  clear hpd hgh
  by_cases hA : applyFilters env.host row cfg.filters = false
  · simp only [if_pos hA]
    refine ⟨?_, ?_, ?_, ?_, ?_, ?_, ?_⟩ <;> first | trivial | omega
  · simp only [if_neg hA]
    by_cases hB : jsTruthy pd.identifier.value = false
    · simp only [if_pos hB]
      refine ⟨?_, ?_, ?_, ?_, ?_, ?_, ?_⟩ <;> first | trivial | omega
    · simp only [if_neg hB]
      by_cases hC : isPreview = false ∧ cfg.options.skipUnchangedRows = true ∧
          (RowCache.checkRow cache1 cfg.id (pd.identifier.value.getD "") gh).changed = false
      · simp only [if_pos hC]
        refine ⟨?_, ?_, ?_, ?_, ?_, ?_, ?_⟩ <;> first | trivial | omega
      · simp only [if_neg hC]
        by_cases hD : env.syncFails row = true
        · simp only [if_pos hD]
          refine ⟨?_, ?_, ?_, ?_, ?_, ?_, ?_⟩ <;> first | trivial | omega
        · simp only [if_neg hD]
          set sr := syncProduct cat1 pd pd.identifier cfg.options.updateExisting
            cfg.options.createNew with hsr
          set fp := findProductInCatalog cat1 pd.identifier with hfp
          clear_value sr fp
          clear hsr hfp
          by_cases hP : isPreview = true
          · simp only [if_pos hP]
            cases fp with
            | none =>
                refine ⟨?_, ?_, ?_, ?_, ?_, ?_, ?_⟩ <;>
                  simp only [apply_ite LoopState.results, apply_ite LoopState.catalog,
                    apply_ite LoopState.rowCache, ite_self] <;>
                  first | trivial | rfl | omega
            | some ep =>
                by_cases hch : (compareProduct ⟨ep.fields, ep.metafields⟩ pd
                    cfg.mappings).length > 0
                · simp only [if_pos hch]
                  refine ⟨?_, ?_, ?_, ?_, ?_, ?_, ?_⟩ <;>
                    simp only [apply_ite LoopState.results, apply_ite LoopState.catalog,
                      apply_ite LoopState.rowCache, ite_self] <;>
                    first | trivial | rfl | omega
                · simp only [if_neg hch]
                  refine ⟨?_, ?_, ?_, ?_, ?_, ?_, ?_⟩ <;>
                    simp only [apply_ite LoopState.results, apply_ite LoopState.catalog,
                      apply_ite LoopState.rowCache, ite_self] <;>
                    first | trivial | rfl | omega
          · simp only [if_neg hP]
            by_cases hop1 : sr.1.operation = "create"
            · simp only [if_pos hop1]
              refine ⟨?_, ?_, ?_, ?_, ?_, ?_, ?_⟩ <;>
                simp only [apply_ite LoopState.results, apply_ite LoopState.catalog,
                  apply_ite LoopState.rowCache, ite_self] <;>
                first | trivial | rfl | omega
            · simp only [if_neg hop1]
              by_cases hop2 : sr.1.operation = "update"
              · simp only [if_pos hop2]
                refine ⟨?_, ?_, ?_, ?_, ?_, ?_, ?_⟩ <;>
                  simp only [apply_ite LoopState.results, apply_ite LoopState.catalog,
                    apply_ite LoopState.rowCache, ite_self] <;>
                  first | trivial | rfl | omega
              · simp only [if_neg hop2]
                refine ⟨?_, ?_, ?_, ?_, ?_, ?_, ?_⟩ <;>
                  simp only [apply_ite LoopState.results, apply_ite LoopState.catalog,
                    apply_ite LoopState.rowCache, ite_self] <;>
                  first | trivial | rfl | omega

theorem go_parallel (cfg : FeedCfg) (env : WorkerEnv) (isPreview : Bool)
    (hnc : ∀ n, env.cancelAfterRow n = false) (tot1 tot2 : Nat) (rows : List CsvRow) :
    ∀ (i1 i2 : Nat) (st1 st2 : LoopState),
      st1.catalog = st2.catalog → st1.rowCache = st2.rowCache →
      (processRowsGo cfg env isPreview 0 tot1 rows i1 st1).2 = false ∧
      (processRowsGo cfg env isPreview 0 tot2 rows i2 st2).2 = false ∧
      (processRowsGo cfg env isPreview 0 tot1 rows i1 st1).1.catalog =
        (processRowsGo cfg env isPreview 0 tot2 rows i2 st2).1.catalog ∧
      (processRowsGo cfg env isPreview 0 tot1 rows i1 st1).1.rowCache =
        (processRowsGo cfg env isPreview 0 tot2 rows i2 st2).1.rowCache ∧
      (processRowsGo cfg env isPreview 0 tot1 rows i1 st1).1.results.processed +
          st2.results.processed =
        (processRowsGo cfg env isPreview 0 tot2 rows i2 st2).1.results.processed +
          st1.results.processed ∧
      (processRowsGo cfg env isPreview 0 tot1 rows i1 st1).1.results.created +
          st2.results.created =
        (processRowsGo cfg env isPreview 0 tot2 rows i2 st2).1.results.created +
          st1.results.created ∧
      (processRowsGo cfg env isPreview 0 tot1 rows i1 st1).1.results.updated +
          st2.results.updated =
        (processRowsGo cfg env isPreview 0 tot2 rows i2 st2).1.results.updated +
          st1.results.updated ∧
      (processRowsGo cfg env isPreview 0 tot1 rows i1 st1).1.results.skipped +
          st2.results.skipped =
        (processRowsGo cfg env isPreview 0 tot2 rows i2 st2).1.results.skipped +
          st1.results.skipped ∧
      (processRowsGo cfg env isPreview 0 tot1 rows i1 st1).1.results.failed +
          st2.results.failed =
        (processRowsGo cfg env isPreview 0 tot2 rows i2 st2).1.results.failed +
          st1.results.failed := by
  induction rows with
  | nil =>
      intro i1 i2 st1 st2 hcat hcache
      simp [processRowsGo, hcat, hcache]
      omega
  | cons row rest ih =>
      intro i1 i2 st1 st2 hcat hcache
      rw [processRowsGo_cons cfg env isPreview tot1 row rest i1 st1 (hnc (i1 + 1))]
      rw [processRowsGo_cons cfg env isPreview tot2 row rest i2 st2 (hnc (i2 + 1))]
      obtain ⟨pcat, pcache, pp, pc, pu, ps, pf⟩ :=
        rowIter_parallel cfg env isPreview i1 i2 tot1 tot2 row st1 st2 hcat hcache
      obtain ⟨g1, g2, gcat, gcache, gp, gc, gu, gs, gf⟩ :=
        ih (i1 + 1) (i2 + 1) (rowIter cfg env isPreview i1 tot1 row st1)
          (rowIter cfg env isPreview i2 tot2 row st2) pcat pcache
      exact ⟨g1, g2, gcat, gcache, by omega, by omega, by omega, by omega, by omega⟩

theorem processRowsGo_append (cfg : FeedCfg) (env : WorkerEnv) (isPreview : Bool)
    (tot : Nat) (hnc : ∀ n, env.cancelAfterRow n = false) (l1 l2 : List CsvRow) :
    ∀ (i : Nat) (st : LoopState),
      processRowsGo cfg env isPreview 0 tot (l1 ++ l2) i st =
        processRowsGo cfg env isPreview 0 tot l2 (i + l1.length)
          ((processRowsGo cfg env isPreview 0 tot l1 i st).1) := by
  induction l1 with
  | nil => intro i st; simp [processRowsGo]
  | cons row rest ih =>
      intro i st
      rw [List.cons_append]
      rw [processRowsGo_cons cfg env isPreview tot row (rest ++ l2) i st (hnc (i + 1))]
      rw [processRowsGo_cons cfg env isPreview tot row rest i st (hnc (i + 1))]
      rw [ih (i + 1) (rowIter cfg env isPreview i tot row st)]
      have hidx : i + 1 + rest.length = i + (row :: rest).length := by simp; omega
      rw [hidx]

theorem rowIter_log (cfg : FeedCfg) (env : WorkerEnv) (isPreview : Bool)
    (i tot : Nat) (row : CsvRow) (st : LoopState) :
    ∃ e, (rowIter cfg env isPreview i tot row st).log = st.log ++ [e] := by
  unfold rowIter
  set pd := transformRowWorkerCall env.host row cfg.mappings cfg.matching cfg.valueMappings
    with hpd
  set gh := env.generateHash row with hgh
  clear_value pd gh
  clear hpd hgh
  by_cases hA : applyFilters env.host row cfg.filters = false
  · simp only [if_pos hA]
    exact ⟨_, rfl⟩
  · simp only [if_neg hA]
    by_cases hB : jsTruthy pd.identifier.value = false
    · simp only [if_pos hB]
      exact ⟨_, rfl⟩
    · simp only [if_neg hB]
      by_cases hC : isPreview = false ∧ cfg.options.skipUnchangedRows = true ∧
          (RowCache.checkRow st.rowCache cfg.id (pd.identifier.value.getD "")
            gh).changed = false
      · simp only [if_pos hC]
        exact ⟨_, rfl⟩
      · simp only [if_neg hC]
        by_cases hD : env.syncFails row = true
        · simp only [if_pos hD]
          exact ⟨_, rfl⟩
        · simp only [if_neg hD]
          set sr := syncProduct st.catalog pd pd.identifier cfg.options.updateExisting
            cfg.options.createNew with hsr
          set fp := findProductInCatalog st.catalog pd.identifier with hfp
          clear_value sr fp
          clear hsr hfp
          by_cases hP : isPreview = true
          · simp only [if_pos hP]
            cases fp with
            | none =>
                simp only [apply_ite LoopState.log, ite_self]
                exact ⟨_, rfl⟩
            | some ep =>
                by_cases hch : (compareProduct ⟨ep.fields, ep.metafields⟩ pd
                    cfg.mappings).length > 0
                · simp only [if_pos hch, apply_ite LoopState.log, ite_self]
                  exact ⟨_, rfl⟩
                · simp only [if_neg hch, apply_ite LoopState.log, ite_self]
                  exact ⟨_, rfl⟩
          · simp only [if_neg hP]
            by_cases hup : cfg.options.skipUnchangedRows = true ∧ sr.1.product.isSome = true
            · simp only [if_pos hup, apply_ite LoopState.log, ite_self]
              exact ⟨_, rfl⟩
            · simp only [if_neg hup, apply_ite LoopState.log, ite_self]
              exact ⟨_, rfl⟩

theorem go_log_mono (cfg : FeedCfg) (env : WorkerEnv) (isPreview : Bool) (tot : Nat)
    (hnc : ∀ n, env.cancelAfterRow n = false) (rows : List CsvRow) :
    ∀ (i : Nat) (st : LoopState),
      ∃ t, (processRowsGo cfg env isPreview 0 tot rows i st).1.log = st.log ++ t := by
  induction rows with
  | nil => intro i st; exact ⟨[], by simp [processRowsGo]⟩
  | cons row rest ih =>
      intro i st
      rw [processRowsGo_cons cfg env isPreview tot row rest i st (hnc (i + 1))]
      obtain ⟨e, he⟩ := rowIter_log cfg env isPreview i tot row st
      obtain ⟨t, ht⟩ := ih (i + 1) (rowIter cfg env isPreview i tot row st)
      refine ⟨e :: t, ?_⟩
      rw [ht, he]
      simp

theorem rowIter_bad_id (cfg : FeedCfg) (env : WorkerEnv) (isPreview : Bool)
    (i tot : Nat) (badRow : CsvRow) (st : LoopState)
    (hfil : applyFilters env.host badRow cfg.filters = true)
    (hid : jsTruthy (transformRowWorkerCall env.host badRow cfg.mappings cfg.matching
        cfg.valueMappings).identifier.value = false) :
    rowIter cfg env isPreview i tot badRow st =
      { st with
        results := { st.results with failed := st.results.failed + 1 },
        log := logRow st.log (i + 1) "error" (some "Missing identifier value") } := by
  have h1 : ¬ (applyFilters env.host badRow cfg.filters = false) := by simp [hfil]
  unfold rowIter
  simp only [if_neg h1, if_pos hid]

theorem rowIter_bad_sync (cfg : FeedCfg) (env : WorkerEnv) (isPreview : Bool)
    (i tot : Nat) (badRow : CsvRow) (st : LoopState)
    (hfil : applyFilters env.host badRow cfg.filters = true)
    (hid : ¬ jsTruthy (transformRowWorkerCall env.host badRow cfg.mappings cfg.matching
        cfg.valueMappings).identifier.value = false)
    (hskip : cfg.options.skipUnchangedRows = false)
    (hsf : env.syncFails badRow = true) :
    rowIter cfg env isPreview i tot badRow st =
      { st with
        results := { st.results with failed := st.results.failed + 1 },
        log := logRow st.log (i + 1) "error" (some "sync error") } := by
  have h1 : ¬ (applyFilters env.host badRow cfg.filters = false) := by simp [hfil]
  have h3 : ¬ (isPreview = false ∧ cfg.options.skipUnchangedRows = true ∧
      (RowCache.checkRow st.rowCache cfg.id
        ((transformRowWorkerCall env.host badRow cfg.mappings cfg.matching
          cfg.valueMappings).identifier.value.getD "")
        (env.generateHash badRow)).changed = false) := by
    simp [hskip]
  unfold rowIter
  simp only [if_neg h1, if_neg hid, if_neg h3, if_pos hsf]

theorem processJobRows_eval (cfg : FeedCfg) (env : WorkerEnv) (isPreview : Bool)
    (rows : List CsvRow) (catalog : Catalog) (cache : List RowCacheEntry)
    (hnc : ∀ n, env.cancelAfterRow n = false) :
    (processJobRows cfg env isPreview rows none catalog cache).1.results =
      (processRowsGo cfg env isPreview 0 rows.length rows 0
        ⟨{ zeroResults with totalRows := rows.length }, 0, catalog, cache, [],
          ⟨"processing", 0, 0, 0, zeroResults, 0⟩⟩).1.results ∧
    (processJobRows cfg env isPreview rows none catalog cache).1.log =
      (processRowsGo cfg env isPreview 0 rows.length rows 0
        ⟨{ zeroResults with totalRows := rows.length }, 0, catalog, cache, [],
          ⟨"processing", 0, 0, 0, zeroResults, 0⟩⟩).1.log ∧
    (processJobRows cfg env isPreview rows none catalog cache).1.doc.status
      = "completed" := by
  have h2 := (go_parallel cfg env isPreview hnc rows.length rows.length rows 0 0
    ⟨{ zeroResults with totalRows := rows.length }, 0, catalog, cache, [],
      ⟨"processing", 0, 0, 0, zeroResults, 0⟩⟩
    ⟨{ zeroResults with totalRows := rows.length }, 0, catalog, cache, [],
      ⟨"processing", 0, 0, 0, zeroResults, 0⟩⟩ rfl rfl).1
  unfold processJobRows processRows
  simp only [gt_iff_lt, lt_self_iff_false, if_false]
  simp only [h2, Bool.false_eq_true, if_false]
  exact ⟨trivial, trivial, trivial⟩

/-- C9: a row-level error — an empty/missing identifier value, or a thrown
remote call on a row (with row caching off so the call is reached) — is
caught within that row's iteration: it adds exactly one to the `failed`
aggregate, appends one error row log entry for that row number, leaves
every other aggregate exactly as in the run without the bad row, and the
job still completes. -/
theorem row_level_errors_isolated
    (cfg : FeedCfg) (env : WorkerEnv) (pre post : List CsvRow) (badRow : CsvRow)
    (catalog : Catalog) (cache : List RowCacheEntry)
    (hnc : ∀ n, env.cancelAfterRow n = false)
    (hfil : applyFilters env.host badRow cfg.filters = true)
    (hbad : jsTruthy (transformRowWorkerCall env.host badRow cfg.mappings cfg.matching
          cfg.valueMappings).identifier.value = false ∨
        (jsTruthy (transformRowWorkerCall env.host badRow cfg.mappings cfg.matching
          cfg.valueMappings).identifier.value = true ∧
         env.syncFails badRow = true ∧ cfg.options.skipUnchangedRows = false)) :
    (processJobRows cfg env false (pre ++ badRow :: post) none catalog cache).1.doc.status
      = "completed" ∧
    (processJobRows cfg env false (pre ++ badRow :: post) none catalog cache).1.results.failed
      = (processJobRows cfg env false (pre ++ post) none catalog cache).1.results.failed + 1 ∧
    (processJobRows cfg env false (pre ++ badRow :: post) none catalog
        cache).1.results.processed
      = (processJobRows cfg env false (pre ++ post) none catalog cache).1.results.processed ∧
    (processJobRows cfg env false (pre ++ badRow :: post) none catalog cache).1.results.created
      = (processJobRows cfg env false (pre ++ post) none catalog cache).1.results.created ∧
    (processJobRows cfg env false (pre ++ badRow :: post) none catalog cache).1.results.updated
      = (processJobRows cfg env false (pre ++ post) none catalog cache).1.results.updated ∧
    (processJobRows cfg env false (pre ++ badRow :: post) none catalog cache).1.results.skipped
      = (processJobRows cfg env false (pre ++ post) none catalog cache).1.results.skipped ∧
    (∃ m, (⟨pre.length + 1, "error", "error", some m⟩ : LogRow) ∈
        (processJobRows cfg env false (pre ++ badRow :: post) none catalog cache).1.log) := by
  obtain ⟨hresB, hlogB, hstatB⟩ :=
    processJobRows_eval cfg env false (pre ++ badRow :: post) catalog cache hnc
  obtain ⟨hresG, hlogG, _⟩ :=
    processJobRows_eval cfg env false (pre ++ post) catalog cache hnc
  set NB := (pre ++ badRow :: post).length with hNB
  set NG := (pre ++ post).length with hNG
  set stB : LoopState := ⟨{ zeroResults with totalRows := NB }, 0, catalog, cache, [],
    ⟨"processing", 0, 0, 0, zeroResults, 0⟩⟩ with hstB2
  set stG : LoopState := ⟨{ zeroResults with totalRows := NG }, 0, catalog, cache, [],
    ⟨"processing", 0, 0, 0, zeroResults, 0⟩⟩ with hstG2
  set A := (processRowsGo cfg env false 0 NB pre 0 stB).1 with hA
  set B := (processRowsGo cfg env false 0 NG pre 0 stG).1 with hB
  have hsplitB : processRowsGo cfg env false 0 NB (pre ++ badRow :: post) 0 stB =
      processRowsGo cfg env false 0 NB post (pre.length + 1)
        (rowIter cfg env false pre.length NB badRow A) := by
    rw [processRowsGo_append cfg env false NB hnc pre (badRow :: post) 0 stB]
    simp only [Nat.zero_add]
    rw [processRowsGo_cons cfg env false NB badRow post pre.length A
      (hnc (pre.length + 1))]
  have hsplitG : processRowsGo cfg env false 0 NG (pre ++ post) 0 stG =
      processRowsGo cfg env false 0 NG post pre.length B := by
    rw [processRowsGo_append cfg env false NG hnc pre post 0 stG]
    simp only [Nat.zero_add]
  have hpre := go_parallel cfg env false hnc NB NG pre 0 0 stB stG rfl rfl
  rw [← hA, ← hB] at hpre
  have hEQbad : rowIter cfg env false pre.length NB badRow A =
      { A with
        results := { A.results with failed := A.results.failed + 1 },
        log := logRow A.log (pre.length + 1) "error"
          (some (if jsTruthy (transformRowWorkerCall env.host badRow cfg.mappings
              cfg.matching cfg.valueMappings).identifier.value = false
            then "Missing identifier value" else "sync error")) } := by
    rcases hbad with hid | ⟨hid1, hsf, hskip⟩
    · rw [if_pos hid]
      exact rowIter_bad_id cfg env false pre.length NB badRow A hfil hid
    · have hidne : ¬ jsTruthy (transformRowWorkerCall env.host badRow cfg.mappings
          cfg.matching cfg.valueMappings).identifier.value = false := by
        rw [hid1]; simp
      rw [if_neg hidne]
      exact rowIter_bad_sync cfg env false pre.length NB badRow A hfil hidne hskip hsf
  have hcat2 : (rowIter cfg env false pre.length NB badRow A).catalog = B.catalog := by
    rw [hEQbad]
    exact hpre.2.2.1
  have hcache2 : (rowIter cfg env false pre.length NB badRow A).rowCache = B.rowCache := by
    rw [hEQbad]
    exact hpre.2.2.2.1
  have hpost := go_parallel cfg env false hnc NB NG post (pre.length + 1) pre.length
    (rowIter cfg env false pre.length NB badRow A) B hcat2 hcache2
  -- projections of the bad-row step
  have hbp : (rowIter cfg env false pre.length NB badRow A).results.processed
      = A.results.processed := by rw [hEQbad]
  have hbc : (rowIter cfg env false pre.length NB badRow A).results.created
      = A.results.created := by rw [hEQbad]
  have hbu : (rowIter cfg env false pre.length NB badRow A).results.updated
      = A.results.updated := by rw [hEQbad]
  have hbs : (rowIter cfg env false pre.length NB badRow A).results.skipped
      = A.results.skipped := by rw [hEQbad]
  have hbf : (rowIter cfg env false pre.length NB badRow A).results.failed
      = A.results.failed + 1 := by rw [hEQbad]
  -- zero facts on the initial states
  have z1 : stB.results.processed = 0 := rfl
  have z2 : stB.results.created = 0 := rfl
  have z3 : stB.results.updated = 0 := rfl
  have z4 : stB.results.skipped = 0 := rfl
  have z5 : stB.results.failed = 0 := rfl
  have z6 : stG.results.processed = 0 := rfl
  have z7 : stG.results.created = 0 := rfl
  have z8 : stG.results.updated = 0 := rfl
  have z9 : stG.results.skipped = 0 := rfl
  have z10 : stG.results.failed = 0 := rfl
  refine ⟨hstatB, ?_, ?_, ?_, ?_, ?_, ?_⟩
  · rw [hresB, hresG, hsplitB, hsplitG]
    have h1 := hpost.2.2.2.2.2.2.2.2
    have h2 := hpre.2.2.2.2.2.2.2.2
    omega
  · rw [hresB, hresG, hsplitB, hsplitG]
    have h1 := hpost.2.2.2.2.1
    have h2 := hpre.2.2.2.2.1
    omega
  · rw [hresB, hresG, hsplitB, hsplitG]
    have h1 := hpost.2.2.2.2.2.1
    have h2 := hpre.2.2.2.2.2.1
    omega
  · rw [hresB, hresG, hsplitB, hsplitG]
    have h1 := hpost.2.2.2.2.2.2.1
    have h2 := hpre.2.2.2.2.2.2.1
    omega
  · rw [hresB, hresG, hsplitB, hsplitG]
    have h1 := hpost.2.2.2.2.2.2.2.1
    have h2 := hpre.2.2.2.2.2.2.2.1
    omega
  · obtain ⟨t, ht⟩ := go_log_mono cfg env false NB hnc post (pre.length + 1)
      (rowIter cfg env false pre.length NB badRow A)
    refine ⟨(if jsTruthy (transformRowWorkerCall env.host badRow cfg.mappings
        cfg.matching cfg.valueMappings).identifier.value = false
      then "Missing identifier value" else "sync error"), ?_⟩
    rw [hlogB, hsplitB, ht, hEQbad]
    simp [logRow]

set_option maxHeartbeats 2000000 in
/-- Witness for C9: a three-row job whose middle row has an empty `sku`
value — the bad row adds one `failed`, the job still completes, and the
other two rows' outcomes are untouched. -/
theorem row_level_errors_isolated_witness :
    jsTruthy (transformRowWorkerCall envQuiet.host [("sku", some ""), ("name", some "Bad")]
      cfgBasic.mappings cfgBasic.matching cfgBasic.valueMappings).identifier.value = false ∧
    applyFilters envQuiet.host [("sku", some ""), ("name", some "Bad")] cfgBasic.filters
      = true ∧
    (processJobRows cfgBasic envQuiet false
      ([[("sku", some "A1"), ("name", some "Widget")]] ++
        [("sku", some ""), ("name", some "Bad")] ::
        [[("sku", some "B2"), ("name", some "Gadget")]]) none catalogEmpty
      []).1.doc.status = "completed" ∧
    (processJobRows cfgBasic envQuiet false
      ([[("sku", some "A1"), ("name", some "Widget")]] ++
        [("sku", some ""), ("name", some "Bad")] ::
        [[("sku", some "B2"), ("name", some "Gadget")]]) none catalogEmpty
      []).1.results.failed =
    (processJobRows cfgBasic envQuiet false
      ([[("sku", some "A1"), ("name", some "Widget")]] ++
        [[("sku", some "B2"), ("name", some "Gadget")]]) none catalogEmpty
      []).1.results.failed + 1 := by
  have H := row_level_errors_isolated cfgBasic envQuiet
    [[("sku", some "A1"), ("name", some "Widget")]]
    [[("sku", some "B2"), ("name", some "Gadget")]]
    [("sku", some ""), ("name", some "Bad")] catalogEmpty []
    (fun _ => rfl) (by decide) (Or.inl (by decide))
  exact ⟨by decide, by decide, H.1, H.2.1⟩
